import Mathlib

/-!
# Verification of the rustick indicator pipeline

Shallow embedding of the validation + numeric computation pipeline of the
`rustick` repository (`src/indicators/*.rs`, `src/validation/validator.rs`,
`src/models/*.rs`).

Modelling conventions:

* `f64` values flowing through the pipeline are modelled by `Fp K := Option K`
  over a linear ordered field `K`: `some x` is a finite double (idealised as an
  exact field element, ignoring rounding/overflow), `none` models every
  non-finite double (NaN or ±∞).  This conflation is faithful on every branch
  the embedded code takes on a float: the only float branches in the sources
  are `x.is_nan() || x.is_infinite()` (ADX, which maps *both* to `0.0`, i.e.
  exactly the `none` test) and `adx_values[i].is_nan()` (ADXR, applied to the
  ADX output, which provably contains only the NaN fill and finite values,
  never an infinity).  Division `a / b` with finite `a` and `b = 0` yields
  ±∞ or NaN in IEEE, hence `none`; a non-finite operand of `+`, `-`, `*`,
  `abs` always yields a non-finite result, hence `none` propagates.  The one
  IEEE case where a non-finite operand gives a finite result, `finite / ±∞ = 0`,
  is unreachable in the embedded code: the only divisions whose denominator can
  be non-finite are `di_diff / di_sum` in ADX, and whenever `di_sum` is
  infinite so is `di_diff` (they are sum and absolute difference of the same
  two operands), after which the result is normalised to `0.0` exactly as the
  model's `none` is.
* Candle input series are lists of finite values (`List K`); the claims all
  quantify over candle data, and well-formed market data is finite.
* Generic indicators are stated over any `LinearOrderedField K`; concrete
  witnesses instantiate `K := ℚ`, which is executable.  Bollinger bands use
  `f64::sqrt` and are therefore embedded over `ℝ` with `Real.sqrt`.
* Fallible Rust code returning `Result<_, IndicatorError>` is embedded as
  `Except Failure _`.  A Rust panic (out-of-bounds `ndarray` slice, `unwrap()`
  of `None`, index underflow) is modelled by the extra outcome
  `Failure.crash`: `ndarray` panics when a slice begins past the end of an
  axis, so the embedding checks those bounds explicitly.
-/

namespace Rustick

/-- Model of an `f64` as it flows through the pipeline: `some x` is a finite
value, `none` any non-finite value (NaN or ±∞).  See the header comment for
the faithfulness argument. -/
abbrev Fp (K : Type) := Option K

namespace Fp

variable {K : Type} [LinearOrderedField K]

/-- A finite double. -/
def fin (x : K) : Fp K := some x

/-- The NaN sentinel (`f64::NAN`), and more generally any non-finite value. -/
def nan : Fp K := none

/-- IEEE addition: finite + finite is finite, any non-finite operand gives a
non-finite result. -/
def add : Fp K → Fp K → Fp K
  | some x, some y => some (x + y)
  | _, _ => none

/-- IEEE subtraction. -/
def sub : Fp K → Fp K → Fp K
  | some x, some y => some (x - y)
  | _, _ => none

/-- IEEE multiplication (`∞ · 0 = NaN`, so a non-finite operand always gives a
non-finite result). -/
def mul : Fp K → Fp K → Fp K
  | some x, some y => some (x * y)
  | _, _ => none

/-- IEEE division.  `x / 0` is `±∞` (or NaN for `0 / 0`), hence non-finite.
`finite / ±∞ = 0` is not modelled (see header: unreachable in this code). -/
def div : Fp K → Fp K → Fp K
  | some x, some y => if y = 0 then none else some (x / y)
  | _, _ => none

/-- IEEE absolute value. -/
def abs : Fp K → Fp K
  | some x => some |x|
  | none => none

/-- `x.is_nan() || x.is_infinite()`, i.e. the non-finiteness test. -/
def isNonFinite : Fp K → Bool
  | some _ => false
  | none => true

/-- The ADX hygiene step `if x.is_nan() || x.is_infinite() { 0.0 } else { x }`. -/
def normalizeZero : Fp K → Fp K
  | some x => some x
  | none => some 0

theorem normalizeZero_isSome (x : Fp K) : (normalizeZero x).isSome := by
  cases x <;> rfl

theorem add_fin (x y : K) : add (fin x) (fin y) = fin (x + y) := rfl

theorem sub_fin (x y : K) : sub (fin x) (fin y) = fin (x - y) := rfl

theorem mul_fin (x y : K) : mul (fin x) (fin y) = fin (x * y) := rfl

end Fp

/-- `BarField` from `models/data.rs`. -/
inductive BarField where
  | OPEN | HIGH | LOW | CLOSE | VOLUME
deriving DecidableEq, Repr, Fintype

/-- `BarField::to_str` from `models/data.rs`. -/
def BarField.to_str : BarField → String
  | .OPEN => "OPEN"
  | .HIGH => "HIGH"
  | .LOW => "LOW"
  | .CLOSE => "CLOSE"
  | .VOLUME => "VOLUME"

/-- `InputData` from `models/data.rs`: five optional equal-length series.
Candle inputs are finite doubles, idealised as field elements. -/
structure InputData (K : Type) where
  open_ : Option (List K)
  high : Option (List K)
  low : Option (List K)
  close : Option (List K)
  volume : Option (List K)
deriving DecidableEq

/-- `InputData::get_by_bar_field`. -/
def InputData.get_by_bar_field {K : Type} (d : InputData K) : BarField → Option (List K)
  | .OPEN => d.open_
  | .HIGH => d.high
  | .LOW => d.low
  | .CLOSE => d.close
  | .VOLUME => d.volume

/-- Every present field of `d` has length `L`. -/
def InputData.uniformLen {K : Type} (d : InputData K) (L : ℕ) : Prop :=
  ∀ f : BarField, ∀ l, d.get_by_bar_field f = some l → l.length = L

instance {K : Type} (o : Option (List K)) (L : ℕ) :
    Decidable (∀ l, o = some l → l.length = L) :=
  match o with
  | none => isTrue (by simp)
  | some l => if h : l.length = L then isTrue (by simpa) else isFalse (by simpa)

instance {K : Type} (d : InputData K) (L : ℕ) : Decidable (d.uniformLen L) :=
  inferInstanceAs (Decidable (∀ f : BarField, ∀ l, d.get_by_bar_field f = some l → l.length = L))

/-- `OutputData` from `models/data.rs`.  The `HashMap` of a multi-series
output is modelled as an association list in insertion order. -/
inductive OutputData (K : Type) where
  | SingleSeries : List (Fp K) → OutputData K
  | MultiSeries : List (String × List (Fp K)) → OutputData K
deriving DecidableEq

/-- The list of series contained in an output. -/
def OutputData.series {K : Type} : OutputData K → List (List (Fp K))
  | .SingleSeries s => [s]
  | .MultiSeries m => m.map Prod.snd

/-- `IndicatorError` from `models/indicator.rs`. -/
inductive IndicatorError where
  | InvalidInput : String → IndicatorError
  | InvalidParameters : String → IndicatorError
  | CalculationError : String → IndicatorError
deriving DecidableEq

/-- Total outcome of running a fallible Rust function: a returned
`IndicatorError`, or a panic (modelled without its message). -/
inductive Failure where
  | err : IndicatorError → Failure
  | crash : Failure
deriving DecidableEq

instance {ε α : Type} [DecidableEq ε] [DecidableEq α] : DecidableEq (Except ε α)
  | .ok a, .ok b =>
    if h : a = b then isTrue (by rw [h]) else isFalse (by simp [h])
  | .ok _, .error _ => isFalse (by simp)
  | .error _, .ok _ => isFalse (by simp)
  | .error e, .error f =>
    if h : e = f then isTrue (by rw [h]) else isFalse (by simp [h])

abbrev Res (α : Type) := Except Failure α

/-- Lift a `Result<T, IndicatorError>` into the panic-aware outcome type. -/
def liftErr {α : Type} : Except IndicatorError α → Res α
  | .ok a => .ok a
  | .error e => .error (.err e)

@[simp]
theorem bind_ok_res {ε α β : Type} (a : α) (f : α → Except ε β) :
    (Except.ok a : Except ε α) >>= f = f a := rfl

@[simp]
theorem bind_error_res {ε α β : Type} (e : ε) (f : α → Except ε β) :
    (Except.error e : Except ε α) >>= f = .error e := rfl

section Kernels

variable {K : Type} [LinearOrderedField K]

/-- Left fold used by `ndarray`'s `.sum()` / `.mean()` numerator. -/
def fpSum (l : List (Fp K)) : Fp K := l.foldl Fp.add (Fp.fin 0)

/-- `ndarray`'s `.mean()` of the first `period` entries, `sum / len`.  For
`period = 0` the Rust `mean()` returns `None` and the callers `unwrap()`, a
panic; callers guard this case. -/
def fpMeanTake (data : List (Fp K)) (period : ℕ) : Fp K :=
  Fp.div (fpSum (data.take period)) (Fp.fin (period : K))

/-- The running-total loop of `cumulative_sum` (`utils.rs`): `sum += value;
cumsum[i] = sum` with `sum` starting at `0.0`. -/
def cumulative_sum_go (sum : Fp K) : List (Fp K) → List (Fp K)
  | [] => []
  | v :: vs => (sum.add v) :: cumulative_sum_go (sum.add v) vs

/-- `cumulative_sum` from `utils.rs`. -/
def cumulative_sum (input : List (Fp K)) : List (Fp K) :=
  cumulative_sum_go (Fp.fin 0) input

/-- The money-flow multiplier of `calculate_adl` (`utils.rs`): the division
`((close - low) - (high - close)) / (high - low)` is performed first
(yielding a non-finite value where `high - low = 0`) and the masked entries
are then overwritten with `0.0`, exactly as in the source. -/
def adl_mfm (high low close : List K) : List (Fp K) :=
  let high_low_range := List.zipWith (fun h l => h - l) high low
  let zero_range_mask := high_low_range.map (fun x => decide (x = 0))
  let mfm_numerator :=
    List.zipWith (fun a b => a - b)
      (List.zipWith (fun c l => c - l) close low)
      (List.zipWith (fun h c => h - c) high close)
  let mfm0 := List.zipWith (fun n r => Fp.div (Fp.fin n) (Fp.fin r)) mfm_numerator high_low_range
  List.zipWith (fun m z => if z then Fp.fin 0 else m) mfm0 zero_range_mask

/-- The money-flow volume of `calculate_adl`: `mfm * volume`. -/
def adl_mfv (high low close volume : List K) : List (Fp K) :=
  List.zipWith (fun m v => m.mul (Fp.fin v)) (adl_mfm high low close) volume

/-- `calculate_adl` from `utils.rs`: money-flow multiplier with the
zero-range mask, money-flow volume, cumulative sum.  This function always
returns `Ok` in the source. -/
def calculate_adl (high low close volume : List K) :
    Except IndicatorError (List (Fp K)) :=
  .ok (cumulative_sum (adl_mfv high low close volume))

/-- The recurrence of `calculate_ema` (`utils.rs`):
`ema[i] = alpha * data[i] + (1 - alpha) * ema[i-1]`. -/
def ema_rec (alpha : K) (prev : Fp K) : List (Fp K) → List (Fp K)
  | [] => []
  | d :: ds =>
    ((Fp.fin alpha).mul d |>.add ((Fp.fin (1 - alpha)).mul prev)) ::
      ema_rec alpha ((Fp.fin alpha).mul d |>.add ((Fp.fin (1 - alpha)).mul prev)) ds

/-- `calculate_ema` from `utils.rs`: zero prefix (`Array1::zeros`), seed
`mean(data[0..period])` at `period - 1`, recurrence after.  Fails when
`period == 0 || period > data.len()`. -/
def calculate_ema (data : List (Fp K)) (period : ℕ) :
    Except IndicatorError (List (Fp K)) :=
  if period = 0 ∨ data.length < period then
    .error (.InvalidParameters "Invalid period for EMA calculation")
  else
    let alpha : K := 2 / ((period : K) + 1)
    let seed := fpMeanTake data period
    .ok (List.replicate (period - 1) (Fp.fin 0) ++ seed :: ema_rec alpha seed (data.drop period))

/-- The `i > 0` arm of the true-range loop: `hl.max(hpc).max(lpc)` with
`prev` the previous close. -/
def tr_from (prev : K) : List K → List K → List K → List K
  | h :: hs, l :: ls, c :: cs =>
    (max (max (h - l) |h - prev|) |l - prev|) :: tr_from c hs ls cs
  | _, _, _ => []

/-- `calculate_true_range` from `utils.rs` (always `Ok` in the source; the
payload is embedded directly).  `tr[0] = high[0] - low[0]`. -/
def calculate_true_range (high low close : List K) : List K :=
  match high, low, close with
  | h :: hs, l :: ls, c :: cs => (h - l) :: tr_from c hs ls cs
  | _, _, _ => []

/-- `get_signed_directional_movement` from `utils.rs`. -/
def get_signed_directional_movement (target comparative : List K) : List K :=
  List.zipWith (fun t c => if t > c ∧ t > 0 then t else 0) target comparative

/-- `calculate_directional_movements` from `utils.rs` (always `Ok`):
`up_move = high[1..] - high[..len-1]`, `down_move = low[..len-1] - low[1..]`,
±DM via the signed test, and a zero prepended to realign.  (On empty input
the source would panic in `slice_mut`; every caller validates
`1 ≤ period ≤ len` first, so the input is never empty.) -/
def calculate_directional_movements (high low : List K) : List K × List K :=
  let up_move := List.zipWith (fun a b => a - b) high.tail high.dropLast
  let down_move := List.zipWith (fun a b => a - b) low.dropLast low.tail
  let plus_dm := get_signed_directional_movement up_move down_move
  let minus_dm := get_signed_directional_movement down_move up_move
  ((0 : K) :: plus_dm, (0 : K) :: minus_dm)

/-- The recurrence of `wilder_smoothing`:
`smoothed[i] = smoothed[i-1] + (data[i] - smoothed[i-1]) / period`. -/
def wilder_rec (p : K) (prev : Fp K) : List (Fp K) → List (Fp K)
  | [] => []
  | d :: ds =>
    (prev.add ((d.sub prev).div (Fp.fin p))) ::
      wilder_rec p (prev.add ((d.sub prev).div (Fp.fin p))) ds

/-- `wilder_smoothing` from `utils.rs`: fails if `len < period`; otherwise
zero prefix, seed `mean(data[0..period])` at `period - 1`, Wilder recurrence.
With `period = 0` (and hence `len ≥ 0 = period`) the source panics unwrapping
the mean of an empty slice, modelled by `crash`. -/
def wilder_smoothing (data : List (Fp K)) (period : ℕ) : Res (List (Fp K)) :=
  if data.length < period then
    .error (.err (.InvalidInput "Data length must be at least equal to the period for smoothing"))
  else if period = 0 then
    .error .crash
  else
    .ok (List.replicate (period - 1) (Fp.fin 0) ++
      fpMeanTake data period :: wilder_rec (period : K) (fpMeanTake data period) (data.drop period))

end Kernels

section Validation

variable {K : Type} [LinearOrderedField K]

/-- A `serde_json` number as it occurs in a serialized parameter struct:
`usize` fields serialize to integers, `f64` fields to floats. -/
inductive JVal (K : Type) where
  | int : Int → JVal K
  | num : K → JVal K
deriving DecidableEq

/-- `Value::as_i64`: succeeds on integers only (a float such as `2.0` is
stored as `f64` and yields `None`). -/
def JVal.as_i64 : JVal K → Option Int
  | .int n => some n
  | .num _ => none

/-- `Value::as_f64`: succeeds on both integer and float numbers. -/
def JVal.as_f64 : JVal K → Option K
  | .int n => some (n : K)
  | .num x => some x

/-- The serialized parameter struct a validator inspects
(`IParameter::to_value` re-serializes the already-decoded typed struct, so
every declared field is present): a JSON object as an association list. -/
abbrev Params (K : Type) := List (String × JVal K)

/-- `Value::get` on an object key. -/
def Params.get (p : Params K) (name : String) : Option (JVal K) :=
  p.lookup name

/-- `ParamRule` from `validation/validator.rs`.  The `PositiveNumber` variant
is referenced by `bbands.rs` but absent from the provided `validator.rs`; it
is carried here and modelled from the spec (see `validate_positive_number`).
`Custom` carries the rule function. -/
inductive ParamRule (K : Type) where
  | Required : String → ParamRule K
  | PositiveInteger : String → ParamRule K
  | CorrectPeriod : String → String → ParamRule K
  | LessThanData : String → Int → ParamRule K
  | PositiveNumber : String → ParamRule K
  | Custom : (Params K → InputData K → Except IndicatorError Unit) → ParamRule K

/-- `ParameterValidator::validate_required_param`. -/
def validate_required_param (params : Params K) (param_name : String) :
    Except IndicatorError Unit :=
  if (params.get param_name).isNone then
    .error (.InvalidParameters ("Parameter '" ++ param_name ++ "' does not exist"))
  else .ok ()

/-- `ParameterValidator::validate_positive_integer_param`. -/
def validate_positive_integer_param (params : Params K) (param_name : String) :
    Except IndicatorError Unit :=
  match (params.get param_name).bind JVal.as_i64 with
  | some value =>
    if value > 0 then .ok ()
    else .error (.InvalidParameters ("Parameter '" ++ param_name ++ "' must be a positive integer"))
  | none =>
    .error (.InvalidParameters ("Parameter '" ++ param_name ++ "' must be a positive integer"))

/-- `ParameterValidator::validate_correct_period`. -/
def validate_correct_period (params : Params K) (left right : String) :
    Except IndicatorError Unit :=
  match (params.get left).bind JVal.as_i64 with
  | none => .error (.InvalidParameters ("Parameter '" ++ left ++ "' must be a positive integer"))
  | some left_number =>
    match (params.get right).bind JVal.as_i64 with
    | none => .error (.InvalidParameters ("Parameter '" ++ right ++ "' must be a positive integer"))
    | some right_number =>
      if left_number < right_number then .ok ()
      else .error (.InvalidParameters ("Parameter '" ++ left ++ "' must be less than '" ++ right ++ "'"))

/-- `ParameterValidator::validate_less_than_data` (the static-bound
`LessThanData` rule; no indicator in the sources instantiates it). -/
def validate_less_than_data (params : Params K) (param_name : String) (data_len : Int) :
    Except IndicatorError Unit :=
  match (params.get param_name).bind JVal.as_i64 with
  | some value =>
    if value < data_len then .ok ()
    else .error (.InvalidParameters
      ("Parameter '" ++ param_name ++ "' must be less than " ++ toString data_len ++ "."))
  | none => .error (.InvalidParameters ("Parameter '" ++ param_name ++ "' must be a number."))

/-- Modelled from the spec: the check behind the `PositiveNumber` rule used by
`bbands.rs` is missing from the provided `validator.rs`.  Following the other
rule checks and §4.1/§6 of the spec (a positive `f64` multiplier), the value
must decode as a number (`as_f64`) and be `> 0`.  No claim observes its
failure message. -/
def validate_positive_number (params : Params K) (param_name : String) :
    Except IndicatorError Unit :=
  match (params.get param_name).bind JVal.as_f64 with
  | some value =>
    if value > 0 then .ok ()
    else .error (.InvalidParameters ("Parameter '" ++ param_name ++ "' must be a positive number"))
  | none =>
    .error (.InvalidParameters ("Parameter '" ++ param_name ++ "' must be a positive number"))

/-- Modelled from the spec: `validate_parameter_within_data_length` is
imported from `indicators/utils.rs` by adx/adxr/apo/aroon/atr but absent from
the provided sources.  Per spec §4.1 (the parametrized-by-field variant of
*LessThanData*) the value must not exceed the length of the named candle
field, and the failure message is formatted exactly as
`"Wrong parameter length. '<name>' > data length. (<value> > <bound>)"`;
hence it fails iff `value > length`.  The preceding `Required` /
`PositiveInteger` rules and the candle validator make the parameter a
readable integer and the field present whenever this runs inside a declared
validator; the model returns `Ok` in the unreachable other cases. -/
def validate_parameter_within_data_length (params : Params K) (data : InputData K)
    (param_name : String) (bar_field : BarField) : Except IndicatorError Unit :=
  match (params.get param_name).bind JVal.as_i64, data.get_by_bar_field bar_field with
  | some value, some arr =>
    if value > (arr.length : Int) then
      .error (.InvalidParameters ("Wrong parameter length. '" ++ param_name ++
        "' > data length. (" ++ toString value ++ " > " ++ toString (arr.length : Int) ++ ")"))
    else .ok ()
  | _, _ => .ok ()

/-- Modelled from the spec: `validate_period_less_than_data`, imported by
`chaikin_ad_oscillator.rs` from `indicators/utils.rs`, is likewise absent
from the provided sources; its observable behaviour (spec §4.1 and §8) is the
same bound check with the same message template. -/
def validate_period_less_than_data (params : Params K) (data : InputData K)
    (param_name : String) (bar_field : BarField) : Except IndicatorError Unit :=
  validate_parameter_within_data_length params data param_name bar_field

/-- One arm of the `match` in `ParameterValidator::validate_params`. -/
def evalParamRule (rule : ParamRule K) (params : Params K) (data : InputData K) :
    Except IndicatorError Unit :=
  match rule with
  | .Required param_name => validate_required_param params param_name
  | .PositiveInteger param_name => validate_positive_integer_param params param_name
  | .CorrectPeriod left right => validate_correct_period params left right
  | .LessThanData param data_len => validate_less_than_data params param data_len
  | .PositiveNumber param_name => validate_positive_number params param_name
  | .Custom f => f params data

/-- `CandleValidator` from `validation/validator.rs`. -/
structure CandleValidator where
  required_fields : List BarField

/-- `ParameterValidator` from `validation/validator.rs`. -/
structure ParameterValidator (K : Type) where
  param_rules : List (ParamRule K)

/-- `CandleValidator::is_field_missing`. -/
def CandleValidator.is_field_missing (data : InputData K) (field : BarField) : Bool :=
  (data.get_by_bar_field field).isNone

/-- The loop of `CandleValidator::validate_required_fields_presence`: the
first missing required field aborts with an `InvalidInput` error naming it. -/
def validate_fields_presence_go (data : InputData K) :
    List BarField → Except IndicatorError Unit
  | [] => .ok ()
  | f :: fs =>
    if CandleValidator.is_field_missing data f then
      .error (.InvalidInput ("Field '" ++ f.to_str ++ "' is required but missing."))
    else validate_fields_presence_go data fs

/-- `CandleValidator::validate_required_fields_presence`. -/
def CandleValidator.validate_required_fields_presence (v : CandleValidator)
    (data : InputData K) : Except IndicatorError Unit :=
  validate_fields_presence_go data v.required_fields

/-- `CandleValidator::validate_same_length`. -/
def CandleValidator.validate_same_length (v : CandleValidator) (data : InputData K) :
    Except IndicatorError Unit :=
  let lengths := v.required_fields.filterMap
    (fun f => (data.get_by_bar_field f).map List.length)
  match lengths with
  | [] => .error (.InvalidInput "Empty input.")
  | first_length :: rest =>
    if rest.any (fun len => len ≠ first_length) then
      .error (.InvalidInput "Input data series of the bars must have the same length.")
    else .ok ()

/-- `CandleValidator::validate_candle`. -/
def CandleValidator.validate_candle (v : CandleValidator) (data : InputData K) :
    Except IndicatorError Unit := do
  v.validate_required_fields_presence data
  v.validate_same_length data

/-- The loop of `ParameterValidator::validate_params`: rules run in
declaration order, the first failure short-circuits. -/
def validate_params_go (params : Params K) (data : InputData K) :
    List (ParamRule K) → Except IndicatorError Unit
  | [] => .ok ()
  | r :: rs => do
    evalParamRule r params data
    validate_params_go params data rs

/-- `ParameterValidator::validate_params`. -/
def ParameterValidator.validate_params (v : ParameterValidator K) (params : Params K)
    (data : InputData K) : Except IndicatorError Unit :=
  validate_params_go params data v.param_rules

/-- `Validator` from `validation/validator.rs`. -/
structure Validator (K : Type) where
  candle_validator : CandleValidator
  parameter_validator : ParameterValidator K

/-- `Validator::new`. -/
def Validator.new (required_fields : List BarField) (param_rules : List (ParamRule K)) :
    Validator K :=
  ⟨⟨required_fields⟩, ⟨param_rules⟩⟩

/-- `Validator::validate`: candle contract first, then parameter rules.  (In
the source the typed parameter struct is re-serialized by
`IParameter::to_value`; the model receives that serialized object.) -/
def Validator.validate (v : Validator K) (data : InputData K) (params : Params K) :
    Except IndicatorError Unit := do
  v.candle_validator.validate_candle data
  v.parameter_validator.validate_params params data

end Validation

section Indicators

variable {K : Type} [LinearOrderedField K]

/-- `ADXParams` (`adx.rs`), after serde decoding (default `period = 14`). -/
structure ADXParams where
  period : ℕ
deriving DecidableEq

/-- Serialization of `ADXParams` as seen by the validator. -/
def ADXParams.to_value (p : ADXParams) : Params K :=
  [("period", .int (p.period : Int))]

/-- `create_validator` from `adx.rs`. -/
def adx_create_validator : Validator K :=
  Validator.new [.HIGH, .LOW, .CLOSE]
    [.Required "period",
     .PositiveInteger "period",
     .Custom (fun value data => validate_parameter_within_data_length value data "period" .HIGH)]

/-- Steps 1–6 of `ADX::calculate`: true range, ±DM, the three Wilder
smoothings, ±DI, DX with the NaN/∞-to-zero hygiene step, and the final
Wilder smoothing of DX (the "adx" array before NaN alignment). -/
def adx_smoothed (high low close : List K) (period : ℕ) : Res (List (Fp K)) := do
  let tr := calculate_true_range high low close
  let dms := calculate_directional_movements high low
  let smoothed_tr ← wilder_smoothing (tr.map Fp.fin) period
  let smoothed_plus_dm ← wilder_smoothing (dms.1.map Fp.fin) period
  let smoothed_minus_dm ← wilder_smoothing (dms.2.map Fp.fin) period
  let plus_di := List.zipWith (fun a b => (a.div b).mul (Fp.fin 100)) smoothed_plus_dm smoothed_tr
  let minus_di := List.zipWith (fun a b => (a.div b).mul (Fp.fin 100)) smoothed_minus_dm smoothed_tr
  let di_sum := List.zipWith Fp.add plus_di minus_di
  let di_diff := List.zipWith (fun a b => (a.sub b).abs) plus_di minus_di
  let dx := (List.zipWith (fun d s => (d.div s).mul (Fp.fin 100)) di_diff di_sum).map
    Fp.normalizeZero
  wilder_smoothing dx period

/-- `ADX::calculate` from `adx.rs` (after serde decoding of the parameters).
The out-of-bounds `adx.slice(s![start_index..])` panic of `ndarray` is
modelled by the explicit `start_index > adx.length` check; the
`start_index + valid_length > length` check that follows it in the source is
kept, as is the final NaN-filled array with the valid slice assigned. -/
def adxCalculate (data : InputData K) (params : ADXParams) : Res (OutputData K) := do
  liftErr ((adx_create_validator (K := K)).validate data params.to_value)
  match data.get_by_bar_field .HIGH, data.get_by_bar_field .LOW,
      data.get_by_bar_field .CLOSE with
  | some high, some low, some close =>
    let length := high.length
    let adx ← adx_smoothed high low close params.period
    if length < params.period then
      return OutputData.SingleSeries (List.replicate length Fp.nan)
    else
      let start_index := 2 * (params.period - 1)
      if start_index > adx.length then
        .error .crash
      else
        let valid_adx := adx.drop start_index
        if start_index + valid_adx.length > length then
          .error (.err (.CalculationError "Calculated ADX length exceeds input data length."))
        else
          return OutputData.SingleSeries
            (List.replicate start_index Fp.nan ++ valid_adx ++
              List.replicate (length - (start_index + valid_adx.length)) Fp.nan)
  | _, _, _ => .error .crash

/-- `ADXRParams` (`adxr.rs`), after serde decoding (default `period = 14`). -/
structure ADXRParams where
  period : ℕ
deriving DecidableEq

/-- Serialization of `ADXRParams` as seen by the validator. -/
def ADXRParams.to_value (p : ADXRParams) : Params K :=
  [("period", .int (p.period : Int))]

/-- `create_validator` from `adxr.rs`. -/
def adxr_create_validator : Validator K :=
  Validator.new [.HIGH, .LOW, .CLOSE]
    [.Required "period",
     .PositiveInteger "period",
     .Custom (fun value data => validate_parameter_within_data_length value data "period" .HIGH)]

/-- `ADXR::calculate` from `adxr.rs`: validates, runs `ADX::new().calculate`
on the same data and (re-decoded) params, then averages index `i` with index
`i - period` wherever both ADX values are non-NaN, leaving NaN elsewhere
(the loop starts at `i = period`). -/
def adxrCalculate (data : InputData K) (params : ADXRParams) : Res (OutputData K) := do
  liftErr ((adxr_create_validator (K := K)).validate data params.to_value)
  let adx_result ← adxCalculate data ⟨params.period⟩
  let adx_values ← match adx_result with
    | OutputData.SingleSeries series => pure series
    | _ => .error (.err (.CalculationError "Invalid ADX output."))
  let adxr_values := (List.range adx_values.length).map (fun i =>
    if i < params.period then Fp.nan
    else
      match adx_values.getD i Fp.nan, adx_values.getD (i - params.period) Fp.nan with
      | some a, some b => Fp.div (Fp.add (Fp.fin a) (Fp.fin b)) (Fp.fin 2)
      | _, _ => Fp.nan)
  return OutputData.SingleSeries adxr_values

/-- `APOParams` (`apo.rs`), after serde decoding (defaults `12` / `26`). -/
structure APOParams where
  fast_period : ℕ
  slow_period : ℕ
deriving DecidableEq

/-- Serialization of `APOParams` as seen by the validator. -/
def APOParams.to_value (p : APOParams) : Params K :=
  [("fast_period", .int (p.fast_period : Int)), ("slow_period", .int (p.slow_period : Int))]

/-- `create_validator` from `apo.rs`. -/
def apo_create_validator : Validator K :=
  Validator.new [.CLOSE]
    [.Required "fast_period",
     .Required "slow_period",
     .PositiveInteger "fast_period",
     .PositiveInteger "slow_period",
     .CorrectPeriod "fast_period" "slow_period",
     .Custom (fun value data => validate_parameter_within_data_length value data "fast_period" .CLOSE),
     .Custom (fun value data => validate_parameter_within_data_length value data "slow_period" .CLOSE)]

/-- The recurrence of `exponential_moving_average` (`apo.rs`):
`ema[i] = (data[i] - ema[i-1]) * multiplier + ema[i-1]`. -/
def apo_ema_go (mult : K) (prev : K) : List K → List K
  | [] => []
  | d :: ds => ((d - prev) * mult + prev) :: apo_ema_go mult ((d - prev) * mult + prev) ds

/-- `exponential_moving_average` from `apo.rs`: NaN prefix (`from_elem NAN`),
seed `mean(data[0..period])` at `period - 1`, recurrence after.  For
`period = 0` the source panics on the `ema[period - 1]` index underflow, and
for `period > len` on the out-of-bounds `data.slice(s![..period])`; both are
modelled by `crash` (always unreachable behind the APO validator). -/
def exponential_moving_average (data : List K) (period : ℕ) : Res (List (Fp K)) :=
  if period = 0 ∨ data.length < period then .error .crash
  else
    .ok (List.replicate (period - 1) Fp.nan ++
      (((data.take period).sum / (period : K)) ::
        apo_ema_go (2 / ((period : K) + 1)) ((data.take period).sum / (period : K))
          (data.drop period)).map Fp.fin)

/-- `APO::calculate` from `apo.rs`. -/
def apoCalculate (data : InputData K) (params : APOParams) : Res (OutputData K) := do
  liftErr ((apo_create_validator (K := K)).validate data params.to_value)
  match data.get_by_bar_field .CLOSE with
  | some close =>
    let fast_ema ← exponential_moving_average close params.fast_period
    let slow_ema ← exponential_moving_average close params.slow_period
    return OutputData.SingleSeries (List.zipWith Fp.sub fast_ema slow_ema)
  | none => .error .crash

/-- `AROONParams` (`aroon.rs`), after serde decoding (default `period = 14`). -/
structure AROONParams where
  period : ℕ
deriving DecidableEq

/-- Serialization of `AROONParams` as seen by the validator. -/
def AROONParams.to_value (p : AROONParams) : Params K :=
  [("period", .int (p.period : Int))]

/-- `create_validator` from `aroon.rs`. -/
def aroon_create_validator : Validator K :=
  Validator.new [.HIGH, .LOW]
    [.Required "period",
     .PositiveInteger "period",
     .Custom (fun value data => validate_parameter_within_data_length value data "period" .HIGH),
     .Custom (fun value data => validate_parameter_within_data_length value data "period" .LOW)]

/-- Fold of `ndarray-stats`' `argmax`: keep the first index whose value is
strictly greater than the running best. -/
def argmax_go (bestIdx : ℕ) (best : K) (idx : ℕ) : List K → ℕ
  | [] => bestIdx
  | x :: xs => if x > best then argmax_go idx x (idx + 1) xs else argmax_go bestIdx best (idx + 1) xs

/-- `argmax` over a window (first index of the maximum); the source unwraps
the `Result`, which only fails on an empty window (`period ≥ 1` prevents it). -/
def argmaxIdx : List K → ℕ
  | [] => 0
  | x :: xs => argmax_go 0 x 1 xs

/-- Fold of `ndarray-stats`' `argmin`. -/
def argmin_go (bestIdx : ℕ) (best : K) (idx : ℕ) : List K → ℕ
  | [] => bestIdx
  | x :: xs => if x < best then argmin_go idx x (idx + 1) xs else argmin_go bestIdx best (idx + 1) xs

/-- `argmin` over a window (first index of the minimum). -/
def argminIdx : List K → ℕ
  | [] => 0
  | x :: xs => argmin_go 0 x 1 xs

/-- The `up` array built by the loop of `AROON::calculate`: for each
`i ≥ period - 1` the window `[i+1-period, i+1)` of highs,
`(argmax + 1) / period * 100`; NaN before `period - 1`. -/
def aroon_up_series (high : List K) (period : ℕ) : List (Fp K) :=
  (List.range high.length).map (fun i =>
    if period - 1 ≤ i then
      Fp.fin ((((argmaxIdx ((high.drop (i + 1 - period)).take period) : K) + 1)
        / (period : K)) * 100)
    else Fp.nan)

/-- The `down` array of `AROON::calculate` (argmin over lows; note the loop
runs over `high.length`, the two fields having equal validated lengths). -/
def aroon_down_series (high low : List K) (period : ℕ) : List (Fp K) :=
  (List.range high.length).map (fun i =>
    if period - 1 ≤ i then
      Fp.fin ((((argminIdx ((low.drop (i + 1 - period)).take period) : K) + 1)
        / (period : K)) * 100)
    else Fp.nan)

/-- `AROON::calculate` from `aroon.rs`. -/
def aroonCalculate (data : InputData K) (params : AROONParams) : Res (OutputData K) := do
  liftErr ((aroon_create_validator (K := K)).validate data params.to_value)
  match data.get_by_bar_field .HIGH, data.get_by_bar_field .LOW with
  | some high, some low =>
    return OutputData.MultiSeries
      [("aroon_up", aroon_up_series high params.period),
       ("aroon_down", aroon_down_series high low params.period)]
  | _, _ => .error .crash

/-- `ATRParams` (`atr.rs`), after serde decoding (default `period = 14`). -/
structure ATRParams where
  period : ℕ
deriving DecidableEq

/-- Serialization of `ATRParams` as seen by the validator. -/
def ATRParams.to_value (p : ATRParams) : Params K :=
  [("period", .int (p.period : Int))]

/-- `create_validator` from `atr.rs`. -/
def atr_create_validator : Validator K :=
  Validator.new [.HIGH, .LOW, .CLOSE]
    [.Required "period",
     .PositiveInteger "period",
     .Custom (fun value data => validate_parameter_within_data_length value data "period" .HIGH)]

/-- Wilder's running-average recurrence of `ATR::calculate`:
`atr[i] = (atr[i-1] * (period - 1) + tr[i]) / period`. -/
def atr_go (p : K) (prev : K) : List K → List K
  | [] => []
  | t :: ts => ((prev * (p - 1) + t) / p) :: atr_go p ((prev * (p - 1) + t) / p) ts

/-- `ATR::calculate` from `atr.rs`.  The true-range computed by its
data-parallel map is value-for-value the formula of `calculate_true_range`
(`hl.max(hpc).max(lpc)` with `tr[0] = high[0] - low[0]`), so that kernel is
reused.  For `period = 0` the source panics unwrapping `mean()` of an empty
slice, and for `period > len` on the out-of-bounds `tr.slice(s![0..period])`;
both modelled by `crash` (unreachable behind the validator). -/
def atrCalculate (data : InputData K) (params : ATRParams) : Res (OutputData K) := do
  liftErr ((atr_create_validator (K := K)).validate data params.to_value)
  match data.get_by_bar_field .HIGH, data.get_by_bar_field .LOW,
      data.get_by_bar_field .CLOSE with
  | some high, some low, some close =>
    let tr := calculate_true_range high low close
    let period := params.period
    if period = 0 ∨ tr.length < period then .error .crash
    else
      return OutputData.SingleSeries
        (List.replicate (period - 1) Fp.nan ++
          (((tr.take period).sum / (period : K)) ::
            atr_go (period : K) ((tr.take period).sum / (period : K)) (tr.drop period)).map Fp.fin)
  | _, _, _ => .error .crash

/-- `create_validator` from `avgprice.rs` (note the declared field order;
there are no parameter rules). -/
def avgprice_create_validator : Validator K :=
  Validator.new [.CLOSE, .LOW, .HIGH, .OPEN] []

/-- `AvgPrice::calculate` from `avgprice.rs`: candle validation only
(`validate_data`), then elementwise `(open + high + low + close) / 4`. -/
def avgPriceCalculate (data : InputData K) : Res (OutputData K) := do
  liftErr ((avgprice_create_validator (K := K)).candle_validator.validate_candle data)
  match data.get_by_bar_field .OPEN, data.get_by_bar_field .HIGH,
      data.get_by_bar_field .LOW, data.get_by_bar_field .CLOSE with
  | some o, some h, some l, some c =>
    return OutputData.SingleSeries
      (((List.zipWith (fun a b => a + b)
          (List.zipWith (fun a b => a + b) (List.zipWith (fun a b => a + b) o h) l) c).map
        (fun s => Fp.fin (s / 4))))
  | _, _, _, _ => .error .crash

/-- The in-place cumulative-sum loop of `ChaikinADLine::calculate`
(`ad_line[i] += ad_line[i-1]` for `i ≥ 1`). -/
def ad_line_go (prev : Fp K) : List (Fp K) → List (Fp K)
  | [] => []
  | v :: vs => (v.add prev) :: ad_line_go (v.add prev) vs

/-- `ChaikinADLine::calculate` from `chaikin_ad_line.rs`.  This indicator
does *not* use the shared `Validator`: it checks field presence itself and
reports `InvalidParameters` errors (`"Missing High data"`, ...), checks the
lengths itself, and then computes the masked money-flow series and its
cumulative sum inline. -/
def chaikinADLineCalculate (data : InputData K) : Res (OutputData K) := do
  let high ← match data.high with
    | some h => pure h
    | none => .error (.err (.InvalidParameters "Missing High data"))
  let low ← match data.low with
    | some l => pure l
    | none => .error (.err (.InvalidParameters "Missing Low data"))
  let close ← match data.close with
    | some c => pure c
    | none => .error (.err (.InvalidParameters "Missing Close data"))
  let volume ← match data.volume with
    | some v => pure v
    | none => .error (.err (.InvalidParameters "Missing Volume data"))
  let length := high.length
  if low.length ≠ length ∨ close.length ≠ length ∨ volume.length ≠ length then
    .error (.err (.InvalidParameters "Input data lengths do not match"))
  else
    let high_low_range := List.zipWith (fun h l => h - l) high low
    let zero_range_mask := high_low_range.map (fun x => decide (x = 0))
    let mfm_numerator :=
      List.zipWith (fun a b => a - b)
        (List.zipWith (fun c l => c - l) close low)
        (List.zipWith (fun h c => h - c) high close)
    let mfm0 := List.zipWith (fun n r => Fp.div (Fp.fin n) (Fp.fin r)) mfm_numerator high_low_range
    let mfm := List.zipWith (fun m z => if z then Fp.fin 0 else m) mfm0 zero_range_mask
    let mfv := List.zipWith (fun m v => m.mul (Fp.fin v)) mfm volume
    let ad_line := match mfv with
      | [] => []
      | v :: vs => v :: ad_line_go v vs
    return OutputData.SingleSeries ad_line

/-- `ChaikinOscillatorParams` (`chaikin_ad_oscillator.rs`), after serde
decoding (defaults `3` / `10`). -/
structure ChaikinOscillatorParams where
  short_period : ℕ
  long_period : ℕ
deriving DecidableEq

/-- Serialization of `ChaikinOscillatorParams` as seen by the validator. -/
def ChaikinOscillatorParams.to_value (p : ChaikinOscillatorParams) : Params K :=
  [("short_period", .int (p.short_period : Int)), ("long_period", .int (p.long_period : Int))]

/-- `create_validator` from `chaikin_ad_oscillator.rs`. -/
def adosc_create_validator : Validator K :=
  Validator.new [.HIGH, .LOW, .CLOSE, .VOLUME]
    [.Required "short_period",
     .Required "long_period",
     .PositiveInteger "short_period",
     .PositiveInteger "long_period",
     .CorrectPeriod "short_period" "long_period",
     .Custom (fun value data => validate_period_less_than_data value data "short_period" .HIGH),
     .Custom (fun value data => validate_period_less_than_data value data "long_period" .HIGH)]

/-- `ChaikinADOscillator::calculate` from `chaikin_ad_oscillator.rs`: ADL of
the whole series, EMAs over the short and long periods, then the *sliced*
difference starting at `long_period - 1` — the returned series is shorter
than the input by `long_period - 1`.  The `ndarray` slice panic for
`start_index > len` is modelled by the explicit check (unreachable behind
the validator, which enforces `long_period ≤ len`). -/
def adoscCalculate (data : InputData K) (params : ChaikinOscillatorParams) :
    Res (OutputData K) := do
  liftErr ((adosc_create_validator (K := K)).validate data params.to_value)
  match data.get_by_bar_field .HIGH, data.get_by_bar_field .LOW,
      data.get_by_bar_field .CLOSE, data.get_by_bar_field .VOLUME with
  | some high, some low, some close, some volume =>
    let adl ← liftErr (calculate_adl high low close volume)
    let short_ema ← liftErr (calculate_ema adl params.short_period)
    let long_ema ← liftErr (calculate_ema adl params.long_period)
    let start_index := params.long_period - 1
    if start_index > short_ema.length ∨ start_index > long_ema.length then
      .error .crash
    else
      return OutputData.SingleSeries
        (List.zipWith Fp.sub (short_ema.drop start_index) (long_ema.drop start_index))
  | _, _, _, _ => .error .crash

end Indicators

/-- The `f64::sqrt` used by Bollinger bands: NaN on negative input (hence
`nan`), `Real.sqrt` on non-negative finite input. -/
noncomputable def Fp.sqrtR : Fp ℝ → Fp ℝ
  | some x => if x < 0 then none else some (Real.sqrt x)
  | none => none

/-- `BBandsParams` (`bbands.rs`), after serde decoding (defaults `20` /
`2.0`). -/
structure BBandsParams where
  period : ℕ
  std_dev_multiplier : ℝ

/-- Serialization of `BBandsParams` as seen by the validator (the `usize`
period serializes to an integer, the `f64` multiplier to a float). -/
def BBandsParams.to_value (p : BBandsParams) : Params ℝ :=
  [("period", .int (p.period : Int)), ("std_dev_multiplier", .num p.std_dev_multiplier)]

/-- `create_validator` from `bbands.rs` — note: no rule bounds `period` by
the data length. -/
def bbands_create_validator : Validator ℝ :=
  Validator.new [.CLOSE]
    [.Required "period",
     .Required "std_dev_multiplier",
     .PositiveInteger "period",
     .PositiveNumber "std_dev_multiplier"]

/-- The per-index window computation of `BBands::calculate` for a valid index
`i` (`start = i + 1 - period`): windowed sum and sum of squares recovered
from the prefix sums, mean, (population) variance and standard deviation. -/
noncomputable def bbands_window (cumsum cumsum_sq : List (Fp ℝ)) (period i : ℕ) :
    Fp ℝ × Fp ℝ :=
  let start := i + 1 - period
  let sum := if start = 0 then cumsum.getD i Fp.nan
    else (cumsum.getD i Fp.nan).sub (cumsum.getD (start - 1) Fp.nan)
  let sum_sq := if start = 0 then cumsum_sq.getD i Fp.nan
    else (cumsum_sq.getD i Fp.nan).sub (cumsum_sq.getD (start - 1) Fp.nan)
  let mean := sum.div (Fp.fin (period : ℝ))
  let variance := (((sum_sq.sub (((Fp.fin 2).mul mean).mul sum)).add
    ((mean.mul mean).mul (Fp.fin (period : ℝ)))).div (Fp.fin (period : ℝ)))
  (mean, variance.sqrtR)

/-- The `ma` array of `BBands::calculate`: rolling mean on every index
`i ≥ period - 1`, NaN before. -/
noncomputable def bbands_ma (close : List ℝ) (period : ℕ) : List (Fp ℝ) :=
  (List.range close.length).map (fun i =>
    if period - 1 ≤ i then
      (bbands_window (cumulative_sum (close.map Fp.fin))
        (cumulative_sum ((close.map (fun x => x * x)).map Fp.fin)) period i).1
    else Fp.nan)

/-- The `sd` array of `BBands::calculate`: rolling population standard
deviation on every index `i ≥ period - 1`, NaN before. -/
noncomputable def bbands_sd (close : List ℝ) (period : ℕ) : List (Fp ℝ) :=
  (List.range close.length).map (fun i =>
    if period - 1 ≤ i then
      (bbands_window (cumulative_sum (close.map Fp.fin))
        (cumulative_sum ((close.map (fun x => x * x)).map Fp.fin)) period i).2
    else Fp.nan)

/-- `upper_band = &ma + &(&sd * std_dev_multiplier)`. -/
noncomputable def bbands_upper (close : List ℝ) (period : ℕ) (k : ℝ) : List (Fp ℝ) :=
  List.zipWith Fp.add (bbands_ma close period)
    ((bbands_sd close period).map (fun s => s.mul (Fp.fin k)))

/-- `lower_band = &ma - &(&sd * std_dev_multiplier)`. -/
noncomputable def bbands_lower (close : List ℝ) (period : ℕ) (k : ℝ) : List (Fp ℝ) :=
  List.zipWith Fp.sub (bbands_ma close period)
    ((bbands_sd close period).map (fun s => s.mul (Fp.fin k)))

/-- `BBands::calculate` from `bbands.rs`: prefix sums of `close` and
`close * close`, rolling mean and population standard deviation on every
index `i ≥ period - 1`, NaN before; `upper/lower = ma ± sd * multiplier`. -/
noncomputable def bbandsCalculate (data : InputData ℝ) (params : BBandsParams) :
    Res (OutputData ℝ) := do
  liftErr (bbands_create_validator.validate data params.to_value)
  match data.get_by_bar_field .CLOSE with
  | some close =>
    return OutputData.MultiSeries
      [("middle_band", bbands_ma close params.period),
       ("upper_band", bbands_upper close params.period params.std_dev_multiplier),
       ("lower_band", bbands_lower close params.period params.std_dev_multiplier)]
  | none => .error .crash

/-- Entry `i` of a series, with an (irrelevant, in-range) default. -/
def fpAt {K : Type} [LinearOrderedField K] (l : List (Fp K)) (i : ℕ) : Fp K :=
  l.getD i (Fp.fin 0)

/-- Lengths of the series of an outcome (`[]`-free view used in witnesses). -/
def resultLens {K : Type} (r : Res (OutputData K)) : Res (List ℕ) :=
  r.map (fun o => o.series.map List.length)

section ListLemmas

variable {K : Type} [LinearOrderedField K]

theorem cumulative_sum_go_length (s : Fp K) (l : List (Fp K)) :
    (cumulative_sum_go s l).length = l.length := by
  induction l generalizing s with
  | nil => rfl
  | cons v vs ih => simp [cumulative_sum_go, ih]

theorem cumulative_sum_length (l : List (Fp K)) :
    (cumulative_sum l).length = l.length := cumulative_sum_go_length _ _

theorem wilder_rec_length (p : K) (prev : Fp K) (l : List (Fp K)) :
    (wilder_rec p prev l).length = l.length := by
  induction l generalizing prev with
  | nil => rfl
  | cons d ds ih => simp [wilder_rec, ih]

theorem ema_rec_length (a : K) (prev : Fp K) (l : List (Fp K)) :
    (ema_rec a prev l).length = l.length := by
  induction l generalizing prev with
  | nil => rfl
  | cons d ds ih => simp [ema_rec, ih]

theorem apo_ema_go_length (m : K) (prev : K) (l : List K) :
    (apo_ema_go m prev l).length = l.length := by
  induction l generalizing prev with
  | nil => rfl
  | cons d ds ih => simp [apo_ema_go, ih]

theorem atr_go_length (p : K) (prev : K) (l : List K) :
    (atr_go p prev l).length = l.length := by
  induction l generalizing prev with
  | nil => rfl
  | cons d ds ih => simp [atr_go, ih]

theorem ad_line_go_length (prev : Fp K) (l : List (Fp K)) :
    (ad_line_go prev l).length = l.length := by
  induction l generalizing prev with
  | nil => rfl
  | cons d ds ih => simp [ad_line_go, ih]

theorem tr_from_length (prev : K) (hs ls cs : List K) :
    (tr_from prev hs ls cs).length = min hs.length (min ls.length cs.length) := by
  induction hs generalizing prev ls cs with
  | nil => simp [tr_from]
  | cons h hst ih =>
    cases ls with
    | nil => simp [tr_from]
    | cons l lst =>
      cases cs with
      | nil => simp [tr_from]
      | cons c cst => simp [tr_from, ih]; omega

theorem calculate_true_range_length (high low close : List K)
    (h1 : low.length = high.length) (h2 : close.length = high.length) :
    (calculate_true_range high low close).length = high.length := by
  match high, low, close with
  | [], _, _ => simp_all [calculate_true_range]
  | h :: hs, [], _ => simp_all
  | h :: hs, l :: ls, [] => simp_all
  | h :: hs, l :: ls, c :: cs =>
    simp_all [calculate_true_range, tr_from_length]

theorem wilder_smoothing_ok_length (data : List (Fp K)) (p : ℕ) (out : List (Fp K))
    (h : wilder_smoothing data p = .ok out) : out.length = data.length := by
  unfold wilder_smoothing at h
  split at h
  · exact absurd h (by simp)
  · split at h
    · exact absurd h (by simp)
    · simp only [Except.ok.injEq] at h
      subst h
      simp [wilder_rec_length]
      omega

theorem calculate_ema_ok_length (data : List (Fp K)) (p : ℕ) (out : List (Fp K))
    (h : calculate_ema data p = .ok out) : out.length = data.length := by
  unfold calculate_ema at h
  split at h
  · exact absurd h (by simp)
  · simp only [Except.ok.injEq] at h
    subst h
    simp [ema_rec_length]
    omega

theorem exponential_moving_average_ok_length (data : List K) (p : ℕ) (out : List (Fp K))
    (h : exponential_moving_average data p = .ok out) : out.length = data.length := by
  unfold exponential_moving_average at h
  split at h
  · exact absurd h (by simp)
  · simp only [Except.ok.injEq] at h
    subst h
    simp [apo_ema_go_length]
    omega

theorem getD_zipWith {α β γ : Type} (f : α → β → γ) (a : List α) (b : List β)
    (i : ℕ) (ha : i < a.length) (hb : i < b.length) (d : γ) (da : α) (db : β) :
    (List.zipWith f a b).getD i d = f (a.getD i da) (b.getD i db) := by
  have hz : i < (List.zipWith f a b).length := by
    rw [List.length_zipWith]; omega
  rw [List.getD_eq_getElem?_getD, List.getElem?_eq_getElem hz,
    List.getD_eq_getElem?_getD, List.getElem?_eq_getElem ha,
    List.getD_eq_getElem?_getD, List.getElem?_eq_getElem hb]
  simp [List.getElem_zipWith]

theorem getD_map {α β : Type} (f : α → β) (l : List α) (i : ℕ) (h : i < l.length)
    (d : β) (da : α) : (l.map f).getD i d = f (l.getD i da) := by
  have hm : i < (l.map f).length := by simpa using h
  rw [List.getD_eq_getElem?_getD, List.getElem?_eq_getElem hm,
    List.getD_eq_getElem?_getD, List.getElem?_eq_getElem h]
  simp

theorem Fp.add_fin_zero (x : Fp K) : x.add (Fp.fin 0) = x := by
  cases x <;> simp [Fp.add, Fp.fin]

theorem Fp.zero_add_fin (x : Fp K) : (Fp.fin 0).add x = x := by
  cases x <;> simp [Fp.add, Fp.fin]

theorem Fp.add_isSome {x y : Fp K} (hx : x.isSome) (hy : y.isSome) : (x.add y).isSome := by
  cases x <;> cases y <;> simp_all [Fp.add]

theorem Fp.mul_isSome {x y : Fp K} (hx : x.isSome) (hy : y.isSome) : (x.mul y).isSome := by
  cases x <;> cases y <;> simp_all [Fp.mul]

theorem Fp.zero_mul_fin (v : K) : (Fp.fin 0).mul (Fp.fin v) = Fp.fin 0 := by
  simp [Fp.mul, Fp.fin]

theorem Fp.div_fin_isSome {a b : K} (hb : b ≠ 0) : (Fp.div (Fp.fin a) (Fp.fin b)).isSome := by
  simp [Fp.div, Fp.fin, hb]

theorem cumulative_sum_go_getD_succ (s : Fp K) (l : List (Fp K)) (i : ℕ)
    (h : i + 1 < l.length) (d dl : Fp K) :
    (cumulative_sum_go s l).getD (i + 1) d
      = ((cumulative_sum_go s l).getD i d).add (l.getD (i + 1) dl) := by
  induction l generalizing s i with
  | nil => simp at h
  | cons v vs ih =>
    cases i with
    | zero =>
      cases vs with
      | nil => simp at h
      | cons w ws => simp [cumulative_sum_go]
    | succ j =>
      simp only [cumulative_sum_go, List.getD_cons_succ]
      exact ih (s.add v) j (by simpa using h)

theorem cumulative_sum_getD_succ (l : List (Fp K)) (i : ℕ) (h : i + 1 < l.length)
    (d dl : Fp K) :
    (cumulative_sum l).getD (i + 1) d
      = ((cumulative_sum l).getD i d).add (l.getD (i + 1) dl) :=
  cumulative_sum_go_getD_succ _ l i h d dl

theorem cumulative_sum_getD_zero (l : List (Fp K)) (h : 0 < l.length) (d dl : Fp K) :
    (cumulative_sum l).getD 0 d = (Fp.fin 0).add (l.getD 0 dl) := by
  cases l with
  | nil => simp at h
  | cons v vs => simp [cumulative_sum, cumulative_sum_go]

theorem cumulative_sum_go_isSome (s : Fp K) (l : List (Fp K)) (hs : s.isSome)
    (hl : ∀ x ∈ l, x.isSome) : ∀ y ∈ cumulative_sum_go s l, y.isSome := by
  induction l generalizing s with
  | nil => simp [cumulative_sum_go]
  | cons v vs ih =>
    intro y hy
    simp only [cumulative_sum_go, List.mem_cons] at hy
    rcases hy with rfl | hy
    · exact Fp.add_isSome hs (hl v (by simp))
    · exact ih (s.add v) (Fp.add_isSome hs (hl v (by simp)))
        (fun x hx => hl x (by simp [hx])) y hy

theorem adl_mfm_getD (high low close : List K) (L i : ℕ)
    (hh : high.length = L) (hl : low.length = L) (hc : close.length = L)
    (hi : i < L) (d : Fp K) :
    (adl_mfm high low close).getD i d =
      if high.getD i 0 - low.getD i 0 = 0 then Fp.fin 0
      else Fp.div
        (Fp.fin ((close.getD i 0 - low.getD i 0) - (high.getD i 0 - close.getD i 0)))
        (Fp.fin (high.getD i 0 - low.getD i 0)) := by
  have hhi : i < high.length := by omega
  have hli : i < low.length := by omega
  have hci : i < close.length := by omega
  have hmain : i < (adl_mfm high low close).length := by
    unfold adl_mfm; simp [List.length_zipWith]; omega
  rw [List.getD_eq_getElem?_getD, List.getElem?_eq_getElem hmain]
  simp only [adl_mfm, List.getElem_zipWith, List.getElem_map, Option.getD_some]
  rw [List.getD_eq_getElem?_getD high, List.getElem?_eq_getElem hhi,
    List.getD_eq_getElem?_getD low, List.getElem?_eq_getElem hli,
    List.getD_eq_getElem?_getD close, List.getElem?_eq_getElem hci]
  simp only [Option.getD_some]
  by_cases hz : high[i] - low[i] = 0 <;> simp [hz]

theorem adl_mfm_isSome (high low close : List K) (L i : ℕ)
    (hh : high.length = L) (hl : low.length = L) (hc : close.length = L)
    (hi : i < L) (d : Fp K) : ((adl_mfm high low close).getD i d).isSome := by
  rw [adl_mfm_getD high low close L i hh hl hc hi d]
  split
  · rfl
  · exact Fp.div_fin_isSome (by assumption)

theorem adl_mfv_getD_zero_range (high low close volume : List K) (L i : ℕ)
    (hh : high.length = L) (hl : low.length = L) (hc : close.length = L)
    (hv : volume.length = L) (hi : i < L)
    (hz : high.getD i 0 = low.getD i 0) (d : Fp K) :
    (adl_mfv high low close volume).getD i d = Fp.fin 0 := by
  unfold adl_mfv
  have hmfml : (adl_mfm high low close).length = L := by
    unfold adl_mfm; simp [List.length_zipWith]; omega
  rw [getD_zipWith _ _ _ i (by omega) (by omega) d Fp.nan (0 : K)]
  rw [adl_mfm_getD high low close L i hh hl hc hi Fp.nan]
  rw [if_pos (by rw [hz]; ring)]
  exact Fp.zero_mul_fin _

theorem adl_mfv_isSome (high low close volume : List K) (L i : ℕ)
    (hh : high.length = L) (hl : low.length = L) (hc : close.length = L)
    (hv : volume.length = L) (hi : i < L) (d : Fp K) :
    ((adl_mfv high low close volume).getD i d).isSome := by
  unfold adl_mfv
  have hmfml : (adl_mfm high low close).length = L := by
    unfold adl_mfm; simp [List.length_zipWith]; omega
  rw [getD_zipWith _ _ _ i (by omega) (by omega) d Fp.nan (0 : K)]
  exact Fp.mul_isSome (adl_mfm_isSome high low close L i hh hl hc hi Fp.nan) rfl

theorem adl_mfv_length (high low close volume : List K) (L : ℕ)
    (hh : high.length = L) (hl : low.length = L) (hc : close.length = L)
    (hv : volume.length = L) : (adl_mfv high low close volume).length = L := by
  unfold adl_mfv adl_mfm; simp [List.length_zipWith]; omega

end ListLemmas

/-- **C5.**  In money-flow accumulation (`calculate_adl`), a bar with
`high = low` gets money-flow multiplier exactly `0`, the returned ADL carries
the previous cumulative value forward unchanged at that bar (and is `0` at
bar 0 if the first bar has zero range), and every ADL entry is finite — the
guarded division never lets a NaN or infinity reach the output.  (The
equal-length hypotheses mirror every call site: `ndarray` arithmetic requires
equal shapes and both callers validate them first.) -/
theorem spec_c5 (K : Type) [LinearOrderedField K]
    (high low close volume : List K) (L : ℕ)
    (hh : high.length = L) (hl : low.length = L) (hc : close.length = L)
    (hv : volume.length = L)
    (adl : List (Fp K)) (hadl : calculate_adl high low close volume = .ok adl) :
    (∀ i, i < L → high.getD i 0 = low.getD i 0 →
      fpAt (adl_mfm high low close) i = Fp.fin 0) ∧
    (∀ i, i < L → 0 < i → high.getD i 0 = low.getD i 0 →
      fpAt adl i = fpAt adl (i - 1)) ∧
    (0 < L → high.getD 0 0 = low.getD 0 0 → fpAt adl 0 = Fp.fin 0) ∧
    (∀ i, i < L → (fpAt adl i).isSome) := by
  have hadl' : adl = cumulative_sum (adl_mfv high low close volume) := by
    unfold calculate_adl at hadl
    simpa using hadl.symm
  subst hadl'
  have hmfvl : (adl_mfv high low close volume).length = L :=
    adl_mfv_length high low close volume L hh hl hc hv
  have hcsl : (cumulative_sum (adl_mfv high low close volume)).length = L := by
    rw [cumulative_sum_length]; exact hmfvl
  refine ⟨?_, ?_, ?_, ?_⟩
  · intro i hi hz
    unfold fpAt
    rw [adl_mfm_getD high low close L i hh hl hc hi (Fp.fin 0)]
    rw [if_pos (by rw [hz]; ring)]
  · intro i hi hpos hz
    unfold fpAt
    obtain ⟨j, rfl⟩ : ∃ j, i = j + 1 := ⟨i - 1, by omega⟩
    rw [cumulative_sum_getD_succ _ j (by omega) (Fp.fin 0) (Fp.fin 0)]
    rw [show (adl_mfv high low close volume).getD (j + 1) (Fp.fin 0) = Fp.fin 0 from
      adl_mfv_getD_zero_range high low close volume L (j + 1) hh hl hc hv (by omega) hz _]
    simp [Fp.add_fin_zero]
  · intro hL hz
    unfold fpAt
    rw [cumulative_sum_getD_zero _ (by omega) (Fp.fin 0) (Fp.fin 0)]
    rw [show (adl_mfv high low close volume).getD 0 (Fp.fin 0) = Fp.fin 0 from
      adl_mfv_getD_zero_range high low close volume L 0 hh hl hc hv (by omega) hz _]
    simp [Fp.add_fin_zero]
  · intro i hi
    unfold fpAt
    have hcl : i < (cumulative_sum (adl_mfv high low close volume)).length := by omega
    rw [List.getD_eq_getElem?_getD, List.getElem?_eq_getElem hcl]
    simp only [Option.getD_some]
    refine cumulative_sum_go_isSome (Fp.fin 0) _ rfl
      (fun x hx => ?_) _ (List.getElem_mem hcl)
    obtain ⟨j, hj, rfl⟩ := List.mem_iff_getElem.mp hx
    have h5 := adl_mfv_isSome high low close volume L j hh hl hc hv (by omega) (Fp.fin 0)
    rw [List.getD_eq_getElem?_getD, List.getElem?_eq_getElem hj] at h5
    simpa using h5

/-- Witness for C5 at a concrete input (`L = 2`, zero range at bar 0). -/
theorem spec_c5_witness :
    fpAt (adl_mfm (K := ℚ) [5, 4] [5, 3] [5, 7/2]) 0 = Fp.fin 0 ∧
    fpAt (cumulative_sum (adl_mfv (K := ℚ) [5, 4] [5, 3] [5, 7/2] [10, 20])) 0 = Fp.fin 0 ∧
    (fpAt (cumulative_sum (adl_mfv (K := ℚ) [5, 4] [5, 3] [5, 7/2] [10, 20])) 1).isSome := by
  have h := spec_c5 ℚ [5, 4] [5, 3] [5, 7/2] [10, 20] 2
    (by decide) (by decide) (by decide) (by decide) _ rfl
  exact ⟨h.1 0 (by decide) (by decide), h.2.2.1 (by decide) (by decide),
    h.2.2.2 1 (by decide)⟩

section ValidatorLemmas

variable {K : Type} [LinearOrderedField K]

/-- The first required field that is missing from the input, in declaration
order (`find?` mirrors the presence loop). -/
def firstMissingField (rf : List BarField) (d : InputData K) : Option BarField :=
  rf.find? (fun f => CandleValidator.is_field_missing d f)

/-- The missing-field message of `CandleValidator`. -/
def missingFieldMsg (f : BarField) : String :=
  "Field '" ++ f.to_str ++ "' is required but missing."

theorem validate_fields_presence_go_first (d : InputData K) (rf : List BarField)
    (f : BarField) (h : rf.find? (fun g => CandleValidator.is_field_missing d g) = some f) :
    validate_fields_presence_go d rf = .error (.InvalidInput (missingFieldMsg f)) := by
  induction rf with
  | nil => simp [List.find?] at h
  | cons g gs ih =>
    by_cases hg : CandleValidator.is_field_missing d g
    · rw [List.find?_cons_of_pos _ hg] at h
      obtain rfl : g = f := by simpa using h
      simp [validate_fields_presence_go, hg, missingFieldMsg]
    · rw [List.find?_cons_of_neg _ hg] at h
      simp only [validate_fields_presence_go, hg, if_false, Bool.false_eq_true]
      exact ih h

theorem validate_candle_first_missing (v : CandleValidator) (d : InputData K)
    (f : BarField) (h : firstMissingField v.required_fields d = some f) :
    v.validate_candle d = .error (.InvalidInput (missingFieldMsg f)) := by
  unfold CandleValidator.validate_candle CandleValidator.validate_required_fields_presence
  rw [validate_fields_presence_go_first d v.required_fields f h]
  rfl

theorem validator_validate_candle_error (v : Validator K) (d : InputData K)
    (params : Params K) (e : IndicatorError)
    (h : v.candle_validator.validate_candle d = .error e) :
    v.validate d params = .error e := by
  unfold Validator.validate
  rw [h]
  rfl

theorem validate_params_go_first_error (params : Params K) (data : InputData K)
    (rules : List (ParamRule K)) (k : ℕ) (hk : k < rules.length) (e : IndicatorError)
    (hpre : ∀ j, (hj : j < k) →
      evalParamRule (rules.get ⟨j, Nat.lt_trans hj hk⟩) params data = .ok ())
    (hfail : evalParamRule (rules.get ⟨k, hk⟩) params data = .error e) :
    validate_params_go params data rules = .error e := by
  induction rules generalizing k with
  | nil => exact absurd hk (by simp)
  | cons r rs ih =>
    cases k with
    | zero =>
      have h0 : evalParamRule r params data = .error e := hfail
      unfold validate_params_go
      rw [h0]
      rfl
    | succ m =>
      have h0 : evalParamRule r params data = .ok () := hpre 0 (Nat.succ_pos m)
      unfold validate_params_go
      rw [h0]
      exact ih m (by simpa using hk) (fun j hj => hpre (j + 1) (by omega)) hfail

theorem validator_validate_first_rule_error (v : Validator K) (d : InputData K)
    (params : Params K) (k : ℕ) (hk : k < v.parameter_validator.param_rules.length)
    (e : IndicatorError)
    (hcandle : v.candle_validator.validate_candle d = .ok ())
    (hpre : ∀ j, (hj : j < k) →
      evalParamRule (v.parameter_validator.param_rules.get ⟨j, Nat.lt_trans hj hk⟩) params d = .ok ())
    (hfail : evalParamRule (v.parameter_validator.param_rules.get ⟨k, hk⟩) params d = .error e) :
    v.validate d params = .error e := by
  unfold Validator.validate
  rw [hcandle]
  show v.parameter_validator.validate_params params d = .error e
  exact validate_params_go_first_error params d _ k hk e hpre hfail

end ValidatorLemmas

/-- **C7.**  When a period-type parameter fails the data-length bound check
(`validate_parameter_within_data_length`, modelled from the spec: the
function is imported from `indicators/utils.rs` but missing from the provided
sources), the invalid-parameters message is exactly
`"Wrong parameter length. '<name>' > data length. (<value> > <bound>)"`. -/
theorem spec_c7 (K : Type) [LinearOrderedField K] (params : Params K)
    (data : InputData K) (name : String) (field : BarField) (v : Int) (arr : List K)
    (hp : params.get name = some (.int v))
    (hf : data.get_by_bar_field field = some arr)
    (hgt : v > (arr.length : Int)) :
    validate_parameter_within_data_length params data name field =
      .error (.InvalidParameters ("Wrong parameter length. '" ++ name ++
        "' > data length. (" ++ toString v ++ " > " ++ toString (arr.length : Int) ++ ")")) := by
  unfold validate_parameter_within_data_length
  simp [hp, hf, JVal.as_i64, hgt]

/-- Witness for C7: period `5` against candle data of length `3` produces
the literal message of the spec. -/
theorem spec_c7_witness :
    validate_parameter_within_data_length (K := ℚ) [("period", .int 5)]
      ⟨none, some [1, 2, 3], none, none, none⟩ "period" .HIGH =
      .error (.InvalidParameters "Wrong parameter length. 'period' > data length. (5 > 3)") := by
  have h := spec_c7 ℚ [("period", .int 5)] ⟨none, some [1, 2, 3], none, none, none⟩
    "period" .HIGH 5 [1, 2, 3] rfl rfl (by decide)
  rw [h]
  rfl

/-- **C6.**  (a) A candle-contract violation short-circuits `Validator::validate`
with the candle error, whatever the parameters; and the ADX `calculate`
surfaces exactly that error.  (b) When the candle contract holds and a rule
`k` is the first violated parameter rule (all rules before it pass, rule `k`
fails), `Validator::validate` reports rule `k`'s error. -/
theorem spec_c6 :
    (∀ (K : Type) [inst : LinearOrderedField K] (v : Validator K) (data : InputData K)
        (params : Params K) (e : IndicatorError),
      v.candle_validator.validate_candle data = .error e →
      v.validate data params = .error e) ∧
    (∀ (K : Type) [inst : LinearOrderedField K] (data : InputData K) (p : ADXParams)
        (e : IndicatorError),
      (adx_create_validator (K := K)).candle_validator.validate_candle data = .error e →
      adxCalculate data p = .error (.err e)) ∧
    (∀ (K : Type) [inst : LinearOrderedField K] (v : Validator K) (data : InputData K)
        (params : Params K) (k : ℕ) (hk : k < v.parameter_validator.param_rules.length)
        (e : IndicatorError),
      v.candle_validator.validate_candle data = .ok () →
      (∀ j, (hj : j < k) →
        evalParamRule (v.parameter_validator.param_rules.get ⟨j, Nat.lt_trans hj hk⟩) params data = .ok ()) →
      evalParamRule (v.parameter_validator.param_rules.get ⟨k, hk⟩) params data = .error e →
      v.validate data params = .error e) := by
  refine ⟨?_, ?_, ?_⟩
  · intro K inst v data params e h
    exact validator_validate_candle_error v data params e h
  · intro K inst data p e h
    unfold adxCalculate
    rw [validator_validate_candle_error _ data p.to_value e h]
    rfl
  · intro K inst v data params k hk e hcandle hpre hfail
    exact validator_validate_first_rule_error v data params k hk e hcandle hpre hfail

/-- Witness for C6: (i) ADX on data missing `HIGH` *and* `period = 0` reports
the candle error; (ii) the Chaikin oscillator validator with
`short_period = 0, long_period = 0` (violating `PositiveInteger` twice and
`CorrectPeriod`) reports the first violated rule, `PositiveInteger
"short_period"` (rule index 2). -/
theorem spec_c6_witness :
    adxCalculate (K := ℚ) ⟨none, none, some [1, 2], some [1, 2], none⟩ ⟨0⟩ =
      .error (.err (.InvalidInput "Field 'HIGH' is required but missing.")) ∧
    (adosc_create_validator (K := ℚ)).validate ⟨none, some [1, 2], some [1, 2], some [1, 2], some [1, 2]⟩
        (ChaikinOscillatorParams.to_value ⟨0, 0⟩) =
      .error (.InvalidParameters "Parameter 'short_period' must be a positive integer") := by
  constructor
  · exact spec_c6.2.1 ℚ ⟨none, none, some [1, 2], some [1, 2], none⟩ ⟨0⟩
      (.InvalidInput "Field 'HIGH' is required but missing.") (by decide)
  · exact spec_c6.2.2 ℚ (adosc_create_validator (K := ℚ))
      ⟨none, some [1, 2], some [1, 2], some [1, 2], some [1, 2]⟩
      (ChaikinOscillatorParams.to_value ⟨0, 0⟩) 2 (by decide)
      (.InvalidParameters "Parameter 'short_period' must be a positive integer")
      (by decide) (by decide) (by decide)

section MissingField

variable {K : Type} [LinearOrderedField K]

/-- In an outcome, is the error of the invalid-input kind? -/
def isInvalidInputRes : Res (OutputData K) → Bool
  | .error (.err (.InvalidInput _)) => true
  | _ => false

theorem adx_missing_field (d : InputData K) (p : ADXParams) (f : BarField)
    (h : firstMissingField (adx_create_validator (K := K)).candle_validator.required_fields d = some f) :
    adxCalculate d p = .error (.err (.InvalidInput (missingFieldMsg f))) := by
  unfold adxCalculate
  rw [validator_validate_candle_error _ d p.to_value _ (validate_candle_first_missing _ d f h)]
  rfl

theorem adxr_missing_field (d : InputData K) (p : ADXRParams) (f : BarField)
    (h : firstMissingField (adxr_create_validator (K := K)).candle_validator.required_fields d = some f) :
    adxrCalculate d p = .error (.err (.InvalidInput (missingFieldMsg f))) := by
  unfold adxrCalculate
  rw [validator_validate_candle_error _ d p.to_value _ (validate_candle_first_missing _ d f h)]
  rfl

theorem apo_missing_field (d : InputData K) (p : APOParams) (f : BarField)
    (h : firstMissingField (apo_create_validator (K := K)).candle_validator.required_fields d = some f) :
    apoCalculate d p = .error (.err (.InvalidInput (missingFieldMsg f))) := by
  unfold apoCalculate
  rw [validator_validate_candle_error _ d p.to_value _ (validate_candle_first_missing _ d f h)]
  rfl

theorem aroon_missing_field (d : InputData K) (p : AROONParams) (f : BarField)
    (h : firstMissingField (aroon_create_validator (K := K)).candle_validator.required_fields d = some f) :
    aroonCalculate d p = .error (.err (.InvalidInput (missingFieldMsg f))) := by
  unfold aroonCalculate
  rw [validator_validate_candle_error _ d p.to_value _ (validate_candle_first_missing _ d f h)]
  rfl

theorem atr_missing_field (d : InputData K) (p : ATRParams) (f : BarField)
    (h : firstMissingField (atr_create_validator (K := K)).candle_validator.required_fields d = some f) :
    atrCalculate d p = .error (.err (.InvalidInput (missingFieldMsg f))) := by
  unfold atrCalculate
  rw [validator_validate_candle_error _ d p.to_value _ (validate_candle_first_missing _ d f h)]
  rfl

theorem avgprice_missing_field (d : InputData K) (f : BarField)
    (h : firstMissingField (avgprice_create_validator (K := K)).candle_validator.required_fields d = some f) :
    avgPriceCalculate d = .error (.err (.InvalidInput (missingFieldMsg f))) := by
  unfold avgPriceCalculate
  rw [validate_candle_first_missing _ d f h]
  rfl

theorem adosc_missing_field (d : InputData K) (p : ChaikinOscillatorParams) (f : BarField)
    (h : firstMissingField (adosc_create_validator (K := K)).candle_validator.required_fields d = some f) :
    adoscCalculate d p = .error (.err (.InvalidInput (missingFieldMsg f))) := by
  unfold adoscCalculate
  rw [validator_validate_candle_error _ d p.to_value _ (validate_candle_first_missing _ d f h)]
  rfl

theorem bbands_missing_field (d : InputData ℝ) (p : BBandsParams) (f : BarField)
    (h : firstMissingField bbands_create_validator.candle_validator.required_fields d = some f) :
    bbandsCalculate d p = .error (.err (.InvalidInput (missingFieldMsg f))) := by
  unfold bbandsCalculate
  rw [validator_validate_candle_error _ d p.to_value _ (validate_candle_first_missing _ d f h)]
  rfl

end MissingField

/-- **C8 (amended).**  Every indicator gated by the shared `Validator`
(ADX, ADXR, APO, AROON, ATR, AvgPrice, the Chaikin oscillator and Bollinger
bands) reports a missing required candle field as an `InvalidInput` error
naming the field by its uppercase name.  The Chaikin A/D line, by contrast,
bypasses the shared validator and reports `InvalidParameters` errors of the
form `"Missing High data"` / `"Missing Low data"` / `"Missing Close data"` /
`"Missing Volume data"`. -/
theorem spec_c8 :
    (∀ (K : Type) [inst : LinearOrderedField K] (d : InputData K) (p : ADXParams) (f : BarField),
      firstMissingField (adx_create_validator (K := K)).candle_validator.required_fields d = some f →
      adxCalculate d p = .error (.err (.InvalidInput (missingFieldMsg f)))) ∧
    (∀ (K : Type) [inst : LinearOrderedField K] (d : InputData K) (p : ADXRParams) (f : BarField),
      firstMissingField (adxr_create_validator (K := K)).candle_validator.required_fields d = some f →
      adxrCalculate d p = .error (.err (.InvalidInput (missingFieldMsg f)))) ∧
    (∀ (K : Type) [inst : LinearOrderedField K] (d : InputData K) (p : APOParams) (f : BarField),
      firstMissingField (apo_create_validator (K := K)).candle_validator.required_fields d = some f →
      apoCalculate d p = .error (.err (.InvalidInput (missingFieldMsg f)))) ∧
    (∀ (K : Type) [inst : LinearOrderedField K] (d : InputData K) (p : AROONParams) (f : BarField),
      firstMissingField (aroon_create_validator (K := K)).candle_validator.required_fields d = some f →
      aroonCalculate d p = .error (.err (.InvalidInput (missingFieldMsg f)))) ∧
    (∀ (K : Type) [inst : LinearOrderedField K] (d : InputData K) (p : ATRParams) (f : BarField),
      firstMissingField (atr_create_validator (K := K)).candle_validator.required_fields d = some f →
      atrCalculate d p = .error (.err (.InvalidInput (missingFieldMsg f)))) ∧
    (∀ (K : Type) [inst : LinearOrderedField K] (d : InputData K) (f : BarField),
      firstMissingField (avgprice_create_validator (K := K)).candle_validator.required_fields d = some f →
      avgPriceCalculate d = .error (.err (.InvalidInput (missingFieldMsg f)))) ∧
    (∀ (K : Type) [inst : LinearOrderedField K] (d : InputData K) (p : ChaikinOscillatorParams) (f : BarField),
      firstMissingField (adosc_create_validator (K := K)).candle_validator.required_fields d = some f →
      adoscCalculate d p = .error (.err (.InvalidInput (missingFieldMsg f)))) ∧
    (∀ (d : InputData ℝ) (p : BBandsParams) (f : BarField),
      firstMissingField bbands_create_validator.candle_validator.required_fields d = some f →
      bbandsCalculate d p = .error (.err (.InvalidInput (missingFieldMsg f)))) ∧
    (∀ (K : Type) [inst : LinearOrderedField K] (d : InputData K),
      (d.high = none →
        chaikinADLineCalculate d = .error (.err (.InvalidParameters "Missing High data"))) ∧
      (∀ h, d.high = some h → d.low = none →
        chaikinADLineCalculate d = .error (.err (.InvalidParameters "Missing Low data"))) ∧
      (∀ h l, d.high = some h → d.low = some l → d.close = none →
        chaikinADLineCalculate d = .error (.err (.InvalidParameters "Missing Close data"))) ∧
      (∀ h l c, d.high = some h → d.low = some l → d.close = some c → d.volume = none →
        chaikinADLineCalculate d = .error (.err (.InvalidParameters "Missing Volume data")))) := by
  refine ⟨?_, ?_, ?_, ?_, ?_, ?_, ?_, ?_, ?_⟩
  · intro K inst d p f h; exact adx_missing_field d p f h
  · intro K inst d p f h; exact adxr_missing_field d p f h
  · intro K inst d p f h; exact apo_missing_field d p f h
  · intro K inst d p f h; exact aroon_missing_field d p f h
  · intro K inst d p f h; exact atr_missing_field d p f h
  · intro K inst d f h; exact avgprice_missing_field d f h
  · intro K inst d p f h; exact adosc_missing_field d p f h
  · intro d p f h; exact bbands_missing_field d p f h
  · intro K inst d
    refine ⟨?_, ?_, ?_, ?_⟩
    · intro hh; unfold chaikinADLineCalculate; rw [hh]; rfl
    · intro h hh hl; unfold chaikinADLineCalculate; rw [hh, hl]; rfl
    · intro h l hh hl hc; unfold chaikinADLineCalculate; rw [hh, hl, hc]; rfl
    · intro h l c hh hl hc hv; unfold chaikinADLineCalculate; rw [hh, hl, hc, hv]; rfl

/-- Counterexample to C8 as stated: the Chaikin A/D line with `HIGH` absent
returns an `InvalidParameters` error with message `"Missing High data"` —
not an `InvalidInput` error naming the uppercase field. -/
theorem spec_c8_counterexample :
    chaikinADLineCalculate (K := ℚ) ⟨none, none, some [1], some [1], some [1]⟩ =
      .error (.err (.InvalidParameters "Missing High data")) ∧
    isInvalidInputRes (chaikinADLineCalculate (K := ℚ)
      ⟨none, none, some [1], some [1], some [1]⟩) = false := by
  exact ⟨by decide, by decide⟩

/-- Witness for C8 (amended): AROON with `LOW` absent reports
`InvalidInput "Field 'LOW' is required but missing."`, and the Chaikin A/D
line with `LOW` absent reports `InvalidParameters "Missing Low data"`. -/
theorem spec_c8_witness :
    aroonCalculate (K := ℚ) ⟨none, some [1, 2], none, none, none⟩ ⟨1⟩ =
      .error (.err (.InvalidInput "Field 'LOW' is required but missing.")) ∧
    chaikinADLineCalculate (K := ℚ) ⟨none, some [1, 2], none, some [1, 2], some [1, 2]⟩ =
      .error (.err (.InvalidParameters "Missing Low data")) := by
  constructor
  · exact spec_c8.2.2.2.1 ℚ ⟨none, some [1, 2], none, none, none⟩ ⟨1⟩ .LOW (by decide)
  · exact (spec_c8.2.2.2.2.2.2.2.2 ℚ ⟨none, some [1, 2], none, some [1, 2], some [1, 2]⟩).2.1
      [1, 2] rfl rfl

section ValidateOk

variable {K : Type} [LinearOrderedField K]

theorem adx_validate_ok (d : InputData K) (h l c : List K) (L : ℕ)
    (hh : d.high = some h) (hl : d.low = some l) (hc : d.close = some c)
    (hhl : h.length = L) (hll : l.length = L) (hcl : c.length = L)
    (p : ℕ) (hp : 1 ≤ p) (hpL : p ≤ L) :
    (adx_create_validator (K := K)).validate d (ADXParams.to_value ⟨p⟩) = .ok () := by
  have hp' : (0 : Int) < (p : Int) := by exact_mod_cast hp
  have hnl : ¬(L < p) := by omega
  simp [adx_create_validator, Validator.new, Validator.validate,
    CandleValidator.validate_candle, CandleValidator.validate_required_fields_presence,
    validate_fields_presence_go, CandleValidator.is_field_missing,
    InputData.get_by_bar_field, hh, hl, hc, hhl, hll, hcl,
    CandleValidator.validate_same_length, ParameterValidator.validate_params,
    validate_params_go, evalParamRule, validate_required_param,
    validate_positive_integer_param, validate_parameter_within_data_length,
    Params.get, ADXParams.to_value, JVal.as_i64, hp', hnl]

theorem adxr_validate_ok (d : InputData K) (h l c : List K) (L : ℕ)
    (hh : d.high = some h) (hl : d.low = some l) (hc : d.close = some c)
    (hhl : h.length = L) (hll : l.length = L) (hcl : c.length = L)
    (p : ℕ) (hp : 1 ≤ p) (hpL : p ≤ L) :
    (adxr_create_validator (K := K)).validate d (ADXRParams.to_value ⟨p⟩) = .ok () := by
  have hp' : (0 : Int) < (p : Int) := by exact_mod_cast hp
  have hnl : ¬(L < p) := by omega
  simp [adxr_create_validator, Validator.new, Validator.validate,
    CandleValidator.validate_candle, CandleValidator.validate_required_fields_presence,
    validate_fields_presence_go, CandleValidator.is_field_missing,
    InputData.get_by_bar_field, hh, hl, hc, hhl, hll, hcl,
    CandleValidator.validate_same_length, ParameterValidator.validate_params,
    validate_params_go, evalParamRule, validate_required_param,
    validate_positive_integer_param, validate_parameter_within_data_length,
    Params.get, ADXRParams.to_value, JVal.as_i64, hp', hnl]

theorem aroon_validate_ok (d : InputData K) (h l : List K) (L : ℕ)
    (hh : d.high = some h) (hl : d.low = some l)
    (hhl : h.length = L) (hll : l.length = L)
    (p : ℕ) (hp : 1 ≤ p) (hpL : p ≤ L) :
    (aroon_create_validator (K := K)).validate d (AROONParams.to_value ⟨p⟩) = .ok () := by
  have hp' : (0 : Int) < (p : Int) := by exact_mod_cast hp
  have hnl : ¬(L < p) := by omega
  simp [aroon_create_validator, Validator.new, Validator.validate,
    CandleValidator.validate_candle, CandleValidator.validate_required_fields_presence,
    validate_fields_presence_go, CandleValidator.is_field_missing,
    InputData.get_by_bar_field, hh, hl, hhl, hll,
    CandleValidator.validate_same_length, ParameterValidator.validate_params,
    validate_params_go, evalParamRule, validate_required_param,
    validate_positive_integer_param, validate_parameter_within_data_length,
    Params.get, AROONParams.to_value, JVal.as_i64, hp', hnl]

theorem bbands_validate_ok (d : InputData ℝ) (c : List ℝ) (hc : d.close = some c)
    (p : ℕ) (k : ℝ) (hp : 1 ≤ p) (hk : 0 < k) :
    bbands_create_validator.validate d (BBandsParams.to_value ⟨p, k⟩) = .ok () := by
  have hp' : (0 : Int) < (p : Int) := by exact_mod_cast hp
  have hg1 : Params.get (BBandsParams.to_value ⟨p, k⟩) "period" = some (.int (p : Int)) := rfl
  have hg2 : Params.get (BBandsParams.to_value ⟨p, k⟩) "std_dev_multiplier"
      = some (.num k) := rfl
  simp [bbands_create_validator, Validator.new, Validator.validate,
    CandleValidator.validate_candle, CandleValidator.validate_required_fields_presence,
    validate_fields_presence_go, CandleValidator.is_field_missing,
    InputData.get_by_bar_field, hc,
    CandleValidator.validate_same_length, ParameterValidator.validate_params,
    validate_params_go, evalParamRule, validate_required_param,
    validate_positive_integer_param, validate_positive_number,
    hg1, hg2, JVal.as_i64, JVal.as_f64, hp', hk]

end ValidateOk

theorem range_map_eq_replicate {α : Type} (L : ℕ) (f : ℕ → α) (a : α)
    (h : ∀ i, i < L → f i = a) : (List.range L).map f = List.replicate L a := by
  apply List.ext_getElem (by simp)
  intro i h1 h2
  simp only [List.getElem_map, List.getElem_range, List.getElem_replicate]
  exact h i (by simpa using h1)

/-- **C10.**  Bollinger bands' validator has no rule bounding the period by
the data length: with any positive period `p` larger than the close-series
length `L` (and positive multiplier), `calculate` succeeds and returns three
length-`L` series that are entirely NaN, instead of an invalid-parameters
error. -/
theorem spec_c10 (d : InputData ℝ) (c : List ℝ) (L : ℕ) (hc : d.close = some c)
    (hlen : c.length = L) (p : ℕ) (k : ℝ) (hp : 1 ≤ p) (hpL : L < p) (hk : 0 < k) :
    bbandsCalculate d ⟨p, k⟩ = .ok (OutputData.MultiSeries
      [("middle_band", List.replicate L Fp.nan),
       ("upper_band", List.replicate L Fp.nan),
       ("lower_band", List.replicate L Fp.nan)]) := by
  have hvac : ∀ i, i < c.length → ¬((p : ℕ) - 1 ≤ i) := by
    intro i hi
    omega
  have hma : bbands_ma c p = List.replicate L Fp.nan := by
    unfold bbands_ma
    rw [← hlen]
    exact range_map_eq_replicate _ _ _ (fun i hi => by rw [if_neg (hvac i hi)])
  have hsd : bbands_sd c p = List.replicate L Fp.nan := by
    unfold bbands_sd
    rw [← hlen]
    exact range_map_eq_replicate _ _ _ (fun i hi => by rw [if_neg (hvac i hi)])
  have hmul : (List.replicate L Fp.nan).map (fun s : Fp ℝ => s.mul (Fp.fin k))
      = List.replicate L Fp.nan := by
    rw [List.map_replicate]
    rfl
  have hzip : ∀ g : Fp ℝ → Fp ℝ → Fp ℝ, (∀ y, g Fp.nan y = Fp.nan) →
      List.zipWith g (List.replicate L Fp.nan) (List.replicate L Fp.nan)
        = List.replicate L Fp.nan := by
    intro g hg
    apply List.ext_getElem (by simp)
    intro i h1 h2
    simp only [List.getElem_zipWith, List.getElem_replicate]
    exact hg _
  have hup : bbands_upper c p k = List.replicate L Fp.nan := by
    unfold bbands_upper
    rw [hma, hsd, hmul, hzip Fp.add (fun y => rfl)]
  have hlo : bbands_lower c p k = List.replicate L Fp.nan := by
    unfold bbands_lower
    rw [hma, hsd, hmul, hzip Fp.sub (fun y => rfl)]
  unfold bbandsCalculate
  rw [bbands_validate_ok d c hc p k hp hk]
  show (match d.get_by_bar_field .CLOSE with
    | some close => _
    | none => _) = _
  rw [show d.get_by_bar_field .CLOSE = some c from hc]
  show Except.ok (OutputData.MultiSeries
    [("middle_band", bbands_ma c p), ("upper_band", bbands_upper c p k),
     ("lower_band", bbands_lower c p k)]) = _
  rw [hma, hup, hlo]

/-- Witness for C10 at `L = 1`, `p = 2`, `k = 1`. -/
theorem spec_c10_witness :
    bbandsCalculate ⟨none, none, none, some [1], none⟩ ⟨2, 1⟩ = .ok (OutputData.MultiSeries
      [("middle_band", List.replicate 1 Fp.nan),
       ("upper_band", List.replicate 1 Fp.nan),
       ("lower_band", List.replicate 1 Fp.nan)]) :=
  spec_c10 ⟨none, none, none, some [1], none⟩ [1] 1 rfl rfl 2 1
    (by decide) (by decide) one_pos

section ArgmaxBound

variable {K : Type} [LinearOrderedField K]

theorem argmax_go_lt (bestIdx : ℕ) (best : K) (idx : ℕ) (xs : List K) (n : ℕ)
    (hb : bestIdx < n) (hx : idx + xs.length ≤ n) : argmax_go bestIdx best idx xs < n := by
  induction xs generalizing bestIdx best idx with
  | nil => simpa [argmax_go] using hb
  | cons x xs ih =>
    simp only [argmax_go]
    split
    · exact ih idx x (idx + 1) (by simp at hx; omega) (by simp at hx; omega)
    · exact ih bestIdx best (idx + 1) hb (by simp at hx; omega)

theorem argmaxIdx_lt (w : List K) (hw : w ≠ []) : argmaxIdx w < w.length := by
  match w, hw with
  | x :: xs, _ =>
    exact argmax_go_lt 0 x 1 xs (x :: xs).length (by simp) (by simp; omega)

theorem argmin_go_lt (bestIdx : ℕ) (best : K) (idx : ℕ) (xs : List K) (n : ℕ)
    (hb : bestIdx < n) (hx : idx + xs.length ≤ n) : argmin_go bestIdx best idx xs < n := by
  induction xs generalizing bestIdx best idx with
  | nil => simpa [argmin_go] using hb
  | cons x xs ih =>
    simp only [argmin_go]
    split
    · exact ih idx x (idx + 1) (by simp at hx; omega) (by simp at hx; omega)
    · exact ih bestIdx best (idx + 1) hb (by simp at hx; omega)

theorem argminIdx_lt (w : List K) (hw : w ≠ []) : argminIdx w < w.length := by
  match w, hw with
  | x :: xs, _ =>
    exact argmin_go_lt 0 x 1 xs (x :: xs).length (by simp) (by simp; omega)

/-- The Aroon value `((extremum_index + 1) / p) * 100` lies in
`[100 / p, 100]` whenever the extremum index is `< p`. -/
theorem aroon_value_bounds (a p : ℕ) (hp : 1 ≤ p) (ha : a < p) :
    100 / (p : K) ≤ (((a : K) + 1) / (p : K)) * 100 ∧
      (((a : K) + 1) / (p : K)) * 100 ≤ 100 := by
  have hp0 : (0 : K) < (p : K) := by exact_mod_cast hp
  have h0a : (0 : K) ≤ (a : K) := Nat.cast_nonneg a
  have h2 : (a : K) + 1 ≤ (p : K) := by exact_mod_cast ha
  constructor
  · rw [div_mul_eq_mul_div]
    exact (div_le_div_right hp0).mpr (by nlinarith)
  · rw [div_mul_eq_mul_div, div_le_iff hp0]
    nlinarith

end ArgmaxBound

/-- **C9.**  For AROON with a validated period (`1 ≤ p ≤ L`), at every valid
output index `i ≥ p - 1` both `aroon_up[i]` and `aroon_down[i]` are finite
values in the closed interval `[100 / p, 100]` — in particular strictly
positive and at most `100`. -/
theorem spec_c9 (K : Type) [LinearOrderedField K] (d : InputData K)
    (h l : List K) (L : ℕ) (hh : d.high = some h) (hl : d.low = some l)
    (hhl : h.length = L) (hll : l.length = L)
    (p : ℕ) (hp : 1 ≤ p) (hpL : p ≤ L) :
    aroonCalculate d ⟨p⟩ = .ok (.MultiSeries
        [("aroon_up", aroon_up_series h p), ("aroon_down", aroon_down_series h l p)]) ∧
      (aroon_up_series h p).length = L ∧ (aroon_down_series h l p).length = L ∧
      ∀ i, p - 1 ≤ i → i < L →
        (∃ x : K, fpAt (aroon_up_series h p) i = Fp.fin x ∧ 100 / (p : K) ≤ x ∧ x ≤ 100) ∧
        (∃ y : K, fpAt (aroon_down_series h l p) i = Fp.fin y ∧ 100 / (p : K) ≤ y ∧ y ≤ 100) := by
  refine ⟨?_, ?_, ?_, ?_⟩
  · unfold aroonCalculate
    rw [aroon_validate_ok d h l L hh hl hhl hll p hp hpL]
    show (match d.get_by_bar_field .HIGH, d.get_by_bar_field .LOW with
      | some high, some low => _
      | _, _ => _) = _
    rw [show d.get_by_bar_field .HIGH = some h from hh,
      show d.get_by_bar_field .LOW = some l from hl]
    rfl
  · simp [aroon_up_series, hhl]
  · simp [aroon_down_series, hhl]
  · intro i hi hiL
    have key : ∀ (xs : List K) (hxl : xs.length = L) (ar : List K → ℕ)
        (har : ∀ w, w ≠ [] → ar w < w.length),
        ∃ x : K, fpAt ((List.range h.length).map (fun j =>
          if p - 1 ≤ j then
            Fp.fin ((((ar ((xs.drop (j + 1 - p)).take p) : K) + 1) / (p : K)) * 100)
          else Fp.nan)) i = Fp.fin x ∧ 100 / (p : K) ≤ x ∧ x ≤ 100 := by
      intro xs hxl ar har
      have hwl : ((xs.drop (i + 1 - p)).take p).length = p := by
        simp [List.length_take, List.length_drop]
        omega
      have hwne : (xs.drop (i + 1 - p)).take p ≠ [] := by
        intro hemp
        rw [hemp] at hwl
        simp at hwl
        omega
      have hbound := har _ hwne
      rw [hwl] at hbound
      have hmap : i < ((List.range h.length).map (fun j =>
          if p - 1 ≤ j then
            Fp.fin ((((ar ((xs.drop (j + 1 - p)).take p) : K) + 1) / (p : K)) * 100)
          else Fp.nan)).length := by simp; omega
      refine ⟨(((ar ((xs.drop (i + 1 - p)).take p) : K) + 1) / (p : K)) * 100, ?_, ?_, ?_⟩
      · unfold fpAt
        rw [List.getD_eq_getElem?_getD, List.getElem?_eq_getElem hmap]
        simp only [List.getElem_map, List.getElem_range, Option.getD_some]
        rw [if_pos hi]
      · exact (aroon_value_bounds _ p hp hbound).1
      · exact (aroon_value_bounds _ p hp hbound).2
    exact ⟨key h hhl argmaxIdx argmaxIdx_lt, key l hll argminIdx argminIdx_lt⟩

/-- Witness for C9 with `p = 1`, `L = 2` (every valid Aroon value is then
exactly `100`, inside `[100 / 1, 100]`). -/
theorem spec_c9_witness :
    resultLens (aroonCalculate (K := ℚ) ⟨none, some [1, 2], some [0, 1], none, none⟩ ⟨1⟩)
      = .ok [2, 2] := by
  obtain ⟨heq, hlu, hld, _⟩ :=
    spec_c9 ℚ ⟨none, some [1, 2], some [0, 1], none, none⟩ [1, 2] [0, 1] 2
      rfl rfl (by decide) (by decide) 1 (by decide) (by decide)
  rw [resultLens, heq]
  simp [Except.map, OutputData.series, hlu, hld]

section BBandsInvariant

variable {K : Type} [LinearOrderedField K]

/-- Cauchy–Schwarz for lists: `(Σ x)² ≤ |l| · Σ x²`. -/
theorem sq_sum_le_length_mul_sum_sq (l : List K) :
    l.sum ^ 2 ≤ (l.length : K) * (l.map (fun x => x * x)).sum := by
  induction l with
  | nil => simp
  | cons x xs ih =>
    simp only [List.sum_cons, List.map_cons, List.length_cons]
    cases Nat.eq_zero_or_pos xs.length with
    | inl h0 =>
      have hx : xs = [] := List.length_eq_zero.mp h0
      subst hx
      simp [sq]
    | inr hpos =>
      have hn0 : (0 : K) < (xs.length : K) := by exact_mod_cast hpos
      have hEn : 0 ≤ ((xs.length : K) * x ^ 2 + (xs.map (fun x => x * x)).sum
          - 2 * x * xs.sum) * (xs.length : K) := by
        nlinarith [ih, sq_nonneg (xs.sum - (xs.length : K) * x)]
      have hE := (mul_nonneg_iff_of_pos_right hn0).mp hEn
      push_cast
      nlinarith [ih, hE]

theorem cumulative_sum_go_map_fin_getD (s : K) (xs : List K) (i : ℕ)
    (hi : i < xs.length) (d : Fp K) :
    (cumulative_sum_go (Fp.fin s) (xs.map Fp.fin)).getD i d
      = Fp.fin (s + (xs.take (i + 1)).sum) := by
  induction xs generalizing s i with
  | nil => simp at hi
  | cons x xs ih =>
    cases i with
    | zero =>
      simp [cumulative_sum_go, Fp.add, Fp.fin]
    | succ j =>
      simp only [List.map_cons, cumulative_sum_go, List.getD_cons_succ]
      rw [show (Fp.fin s).add (Fp.fin x) = Fp.fin (s + x) from rfl,
        ih (s + x) j (by simpa using hi)]
      simp only [List.take_succ_cons, List.sum_cons, Fp.fin]
      rw [add_assoc]

theorem cumulative_sum_map_fin_getD (xs : List K) (i : ℕ) (hi : i < xs.length)
    (d : Fp K) :
    (cumulative_sum (xs.map Fp.fin)).getD i d = Fp.fin ((xs.take (i + 1)).sum) := by
  unfold cumulative_sum
  rw [show (Fp.fin 0 : Fp K) = Fp.fin (0 : K) from rfl,
    cumulative_sum_go_map_fin_getD 0 xs i hi d, zero_add]

theorem sum_take_split (c : List K) (a b : ℕ) :
    (c.take (a + b)).sum = (c.take a).sum + ((c.drop a).take b).sum := by
  rw [List.take_add, List.sum_append]

end BBandsInvariant

/-- Evaluation of `bbands_window` on a valid index: the mean is the finite
window mean `S / p`, and the standard deviation is a finite non-negative
value (the population variance recovered from the prefix sums is
non-negative by Cauchy–Schwarz, so `sqrt` never sees a negative input). -/
theorem bbands_window_eval (c : List ℝ) (p i : ℕ) (hp : 1 ≤ p) (hi : p - 1 ≤ i)
    (hiL : i < c.length) :
    ∃ sd : ℝ,
      bbands_window (cumulative_sum (c.map Fp.fin))
          (cumulative_sum ((c.map (fun x => x * x)).map Fp.fin)) p i
        = (Fp.fin (((c.drop (i + 1 - p)).take p).sum / (p : ℝ)), Fp.fin sd) ∧
      0 ≤ sd := by
  have hp0 : (0 : ℝ) < (p : ℝ) := by exact_mod_cast hp
  set w : List ℝ := (c.drop (i + 1 - p)).take p with hw
  set S : ℝ := w.sum with hS
  set Q : ℝ := (w.map (fun x => x * x)).sum with hQ
  have hstart : (i + 1 - p) + p = i + 1 := by omega
  have hwlen : w.length = p := by
    rw [hw]
    simp [List.length_take, List.length_drop]
    omega
  have hsum : (bbands_window (cumulative_sum (c.map Fp.fin))
      (cumulative_sum ((c.map (fun x => x * x)).map Fp.fin)) p i) =
      ((Fp.fin S).div (Fp.fin (p : ℝ)),
        Fp.sqrtR ((((Fp.fin Q).sub (((Fp.fin 2).mul ((Fp.fin S).div (Fp.fin (p : ℝ)))).mul (Fp.fin S))).add
          ((((Fp.fin S).div (Fp.fin (p : ℝ))).mul ((Fp.fin S).div (Fp.fin (p : ℝ)))).mul (Fp.fin (p : ℝ)))).div
            (Fp.fin (p : ℝ)))) := by
    unfold bbands_window
    by_cases h0 : i + 1 - p = 0
    · have hip : i + 1 = p := by omega
      have hsum1 : (cumulative_sum (c.map Fp.fin)).getD i Fp.nan = Fp.fin S := by
        rw [cumulative_sum_map_fin_getD c i hiL, hS, hw]
        congr 1
        rw [h0]
        simp [hip]
      have hsum2 : (cumulative_sum ((c.map (fun x => x * x)).map Fp.fin)).getD i Fp.nan
          = Fp.fin Q := by
        rw [cumulative_sum_map_fin_getD _ i (by simpa using hiL), hQ, hw]
        congr 1
        rw [h0]
        simp only [List.drop_zero, hip, List.map_take]
      simp only [h0, hsum1, hsum2, if_true]
    · have h0' : i + 1 - p ≠ 0 := h0
      have hs1 : i + 1 - p - 1 < c.length := by omega
      have hsum1 : ((cumulative_sum (c.map Fp.fin)).getD i Fp.nan).sub
          ((cumulative_sum (c.map Fp.fin)).getD (i + 1 - p - 1) Fp.nan) = Fp.fin S := by
        rw [cumulative_sum_map_fin_getD c i hiL,
          cumulative_sum_map_fin_getD c (i + 1 - p - 1) hs1]
        rw [show i + 1 - p - 1 + 1 = i + 1 - p by omega]
        rw [show (i : ℕ) + 1 = (i + 1 - p) + p from hstart.symm, sum_take_split]
        rw [show Fp.sub = fun a b => Fp.sub a b from rfl]
        simp [Fp.sub, Fp.fin, hS, hw]
      have hsum2 : ((cumulative_sum ((c.map (fun x => x * x)).map Fp.fin)).getD i Fp.nan).sub
          ((cumulative_sum ((c.map (fun x => x * x)).map Fp.fin)).getD (i + 1 - p - 1) Fp.nan)
          = Fp.fin Q := by
        rw [cumulative_sum_map_fin_getD _ i (by simpa using hiL),
          cumulative_sum_map_fin_getD _ (i + 1 - p - 1) (by simpa using hs1)]
        rw [show i + 1 - p - 1 + 1 = i + 1 - p by omega]
        rw [show (i : ℕ) + 1 = (i + 1 - p) + p from hstart.symm, sum_take_split]
        simp [Fp.sub, Fp.fin, hQ, hw, List.map_take, List.map_drop]
      simp only [if_neg h0, hsum1, hsum2]
  have hmean : (Fp.fin S).div (Fp.fin (p : ℝ)) = Fp.fin (S / (p : ℝ)) := by
    simp [Fp.div, Fp.fin, ne_of_gt hp0]
  have hCS : S ^ 2 ≤ (p : ℝ) * Q := by
    have := sq_sum_le_length_mul_sum_sq w
    rwa [hwlen] at this
  have hvar : 0 ≤ (Q - 2 * (S / (p : ℝ)) * S + (S / (p : ℝ)) * (S / (p : ℝ)) * (p : ℝ)) / (p : ℝ) := by
    have heq : (Q - 2 * (S / (p : ℝ)) * S + (S / (p : ℝ)) * (S / (p : ℝ)) * (p : ℝ)) / (p : ℝ)
        = (Q - S ^ 2 / (p : ℝ)) / (p : ℝ) := by
      field_simp
      ring
    rw [heq]
    apply div_nonneg _ (le_of_lt hp0)
    rw [sub_nonneg, div_le_iff₀ hp0]
    linarith [hCS]
  refine ⟨Real.sqrt ((Q - 2 * (S / (p : ℝ)) * S + (S / (p : ℝ)) * (S / (p : ℝ)) * (p : ℝ)) / (p : ℝ)), ?_, Real.sqrt_nonneg _⟩
  rw [hsum, hmean]
  have hvarfp : (((Fp.fin Q).sub (((Fp.fin 2).mul (Fp.fin (S / (p : ℝ)))).mul (Fp.fin S))).add
      (((Fp.fin (S / (p : ℝ))).mul (Fp.fin (S / (p : ℝ)))).mul (Fp.fin (p : ℝ)))).div (Fp.fin (p : ℝ))
      = Fp.fin ((Q - 2 * (S / (p : ℝ)) * S + (S / (p : ℝ)) * (S / (p : ℝ)) * (p : ℝ)) / (p : ℝ)) := by
    simp [Fp.div, Fp.mul, Fp.sub, Fp.add, Fp.fin, ne_of_gt hp0]
  rw [hvarfp]
  simp only [Fp.fin, Fp.sqrtR]
  rw [if_neg (not_lt.mpr hvar)]

/-- **C4.**  For Bollinger bands with a validated positive period and
positive multiplier, at every valid index `i ≥ p - 1` the three outputs are
finite and satisfy `upper_band[i] ≥ middle_band[i] ≥ lower_band[i]`. -/
theorem spec_c4 (d : InputData ℝ) (c : List ℝ) (L : ℕ) (hc : d.close = some c)
    (hlen : c.length = L) (p : ℕ) (k : ℝ) (hp : 1 ≤ p) (hk : 0 < k) :
    bbandsCalculate d ⟨p, k⟩ = .ok (.MultiSeries
      [("middle_band", bbands_ma c p), ("upper_band", bbands_upper c p k),
       ("lower_band", bbands_lower c p k)]) ∧
    ∀ i, p - 1 ≤ i → i < L →
      ∃ m u lo : ℝ, fpAt (bbands_ma c p) i = Fp.fin m ∧
        fpAt (bbands_upper c p k) i = Fp.fin u ∧
        fpAt (bbands_lower c p k) i = Fp.fin lo ∧
        u ≥ m ∧ m ≥ lo := by
  constructor
  · unfold bbandsCalculate
    rw [bbands_validate_ok d c hc p k hp hk]
    show (match d.get_by_bar_field .CLOSE with
      | some close => _
      | none => _) = _
    rw [show d.get_by_bar_field .CLOSE = some c from hc]
    rfl
  · intro i hi hiL
    have hiL' : i < c.length := by omega
    obtain ⟨sd, hwin, hsd⟩ := bbands_window_eval c p i hp hi hiL'
    have hmal : (bbands_ma c p).length = c.length := by
      unfold bbands_ma
      simp
    have hsdl : (bbands_sd c p).length = c.length := by
      unfold bbands_sd
      simp
    have hma : fpAt (bbands_ma c p) i = Fp.fin (((c.drop (i + 1 - p)).take p).sum / (p : ℝ)) := by
      unfold fpAt bbands_ma
      have hm : i < ((List.range c.length).map (fun j =>
          if p - 1 ≤ j then (bbands_window (cumulative_sum (c.map Fp.fin))
            (cumulative_sum ((c.map (fun x => x * x)).map Fp.fin)) p j).1 else Fp.nan)).length := by
        simp
        omega
      rw [List.getD_eq_getElem?_getD, List.getElem?_eq_getElem hm]
      simp only [List.getElem_map, List.getElem_range, Option.getD_some]
      rw [if_pos hi, hwin]
    have hsdv : fpAt (bbands_sd c p) i = Fp.fin sd := by
      unfold fpAt bbands_sd
      have hm : i < ((List.range c.length).map (fun j =>
          if p - 1 ≤ j then (bbands_window (cumulative_sum (c.map Fp.fin))
            (cumulative_sum ((c.map (fun x => x * x)).map Fp.fin)) p j).2 else Fp.nan)).length := by
        simp
        omega
      rw [List.getD_eq_getElem?_getD, List.getElem?_eq_getElem hm]
      simp only [List.getElem_map, List.getElem_range, Option.getD_some]
      rw [if_pos hi, hwin]
    set m : ℝ := ((c.drop (i + 1 - p)).take p).sum / (p : ℝ) with hm
    refine ⟨m, m + sd * k, m - sd * k, hma, ?_, ?_, ?_, ?_⟩
    · unfold fpAt bbands_upper
      have hz : i < (List.zipWith Fp.add (bbands_ma c p)
          ((bbands_sd c p).map (fun s => s.mul (Fp.fin k)))).length := by
        simp [hmal, hsdl]
        omega
      rw [List.getD_eq_getElem?_getD, List.getElem?_eq_getElem hz]
      simp only [List.getElem_zipWith, List.getElem_map, Option.getD_some]
      have h1 : (bbands_ma c p)[i] = Fp.fin m := by
        have := hma
        unfold fpAt at this
        rwa [List.getD_eq_getElem?_getD, List.getElem?_eq_getElem (by omega : i < (bbands_ma c p).length),
          Option.getD_some] at this
      have h2 : (bbands_sd c p)[i] = Fp.fin sd := by
        have := hsdv
        unfold fpAt at this
        rwa [List.getD_eq_getElem?_getD, List.getElem?_eq_getElem (by omega : i < (bbands_sd c p).length),
          Option.getD_some] at this
      rw [h1, h2]
      rfl
    · unfold fpAt bbands_lower
      have hz : i < (List.zipWith Fp.sub (bbands_ma c p)
          ((bbands_sd c p).map (fun s => s.mul (Fp.fin k)))).length := by
        simp [hmal, hsdl]
        omega
      rw [List.getD_eq_getElem?_getD, List.getElem?_eq_getElem hz]
      simp only [List.getElem_zipWith, List.getElem_map, Option.getD_some]
      have h1 : (bbands_ma c p)[i] = Fp.fin m := by
        have := hma
        unfold fpAt at this
        rwa [List.getD_eq_getElem?_getD, List.getElem?_eq_getElem (by omega : i < (bbands_ma c p).length),
          Option.getD_some] at this
      have h2 : (bbands_sd c p)[i] = Fp.fin sd := by
        have := hsdv
        unfold fpAt at this
        rwa [List.getD_eq_getElem?_getD, List.getElem?_eq_getElem (by omega : i < (bbands_sd c p).length),
          Option.getD_some] at this
      rw [h1, h2]
      rfl
    · have : 0 ≤ sd * k := mul_nonneg hsd (le_of_lt hk)
      linarith
    · have : 0 ≤ sd * k := mul_nonneg hsd (le_of_lt hk)
      linarith

/-- Witness for C4 at `close = [1, 2]`, `p = 2`, `k = 1`: the band ordering
at the single valid index `i = 1`. -/
theorem spec_c4_witness :
    ∃ m u lo : ℝ, fpAt (bbands_ma [1, 2] 2) 1 = Fp.fin m ∧
      fpAt (bbands_upper [1, 2] 2 1) 1 = Fp.fin u ∧
      fpAt (bbands_lower [1, 2] 2 1) 1 = Fp.fin lo ∧
      u ≥ m ∧ m ≥ lo := by
  have h := spec_c4 ⟨none, none, none, some [1, 2], none⟩ [1, 2] 2 rfl rfl 2 1
    (by decide) one_pos
  exact h.2 1 (by decide) (by decide)

section WilderLemmas

variable {K : Type} [LinearOrderedField K]

theorem Fp.sub_isSome {x y : Fp K} (hx : x.isSome) (hy : y.isSome) : (x.sub y).isSome := by
  cases x <;> cases y <;> simp_all [Fp.sub]

theorem Fp.div_fin_right_isSome {x : Fp K} (hx : x.isSome) {p : K} (hp : p ≠ 0) :
    (x.div (Fp.fin p)).isSome := by
  cases x
  · simp at hx
  · simp [Fp.div, Fp.fin, hp]

theorem foldl_add_isSome (l : List (Fp K)) (hl : ∀ x ∈ l, x.isSome)
    (acc : Fp K) (hacc : acc.isSome) : (l.foldl Fp.add acc).isSome := by
  induction l generalizing acc with
  | nil => exact hacc
  | cons x xs ih =>
    exact ih (fun y hy => hl y (by simp [hy])) (acc.add x)
      (Fp.add_isSome hacc (hl x (by simp)))

theorem fpMeanTake_isSome (data : List (Fp K)) (p : ℕ) (hp : 1 ≤ p)
    (hsome : ∀ x ∈ data, x.isSome) : (fpMeanTake data p).isSome := by
  unfold fpMeanTake fpSum
  have hpK : ((p : K)) ≠ 0 := Nat.cast_ne_zero.mpr (by omega)
  exact Fp.div_fin_right_isSome
    (foldl_add_isSome _ (fun x hx => hsome x (List.mem_of_mem_take hx)) (Fp.fin 0) rfl) hpK

theorem wilder_rec_mem_isSome (p : K) (hp : p ≠ 0) (prev : Fp K) (hprev : prev.isSome)
    (l : List (Fp K)) (hl : ∀ x ∈ l, x.isSome) : ∀ y ∈ wilder_rec p prev l, y.isSome := by
  induction l generalizing prev with
  | nil => simp [wilder_rec]
  | cons d ds ih =>
    intro y hy
    simp only [wilder_rec, List.mem_cons] at hy
    have hnext : (prev.add ((d.sub prev).div (Fp.fin p))).isSome :=
      Fp.add_isSome hprev
        (Fp.div_fin_right_isSome (Fp.sub_isSome (hl d (by simp)) hprev) hp)
    rcases hy with rfl | hy
    · exact hnext
    · exact ih _ hnext (fun x hx => hl x (by simp [hx])) y hy

theorem wilder_smoothing_ok_eq (data : List (Fp K)) (p : ℕ) (hp : 1 ≤ p)
    (hlen : p ≤ data.length) :
    wilder_smoothing data p = .ok (List.replicate (p - 1) (Fp.fin 0) ++
      fpMeanTake data p :: wilder_rec (p : K) (fpMeanTake data p) (data.drop p)) := by
  unfold wilder_smoothing
  rw [if_neg (by omega), if_neg (by omega)]

theorem exists_wilder_result (data : List (Fp K)) (p L : ℕ) (hp : 1 ≤ p)
    (hlen : data.length = L) (hpL : p ≤ L) (hsome : ∀ x ∈ data, x.isSome) :
    ∃ a, wilder_smoothing data p = .ok a ∧ a.length = L ∧ ∀ x ∈ a, x.isSome := by
  have hpK : ((p : K)) ≠ 0 := Nat.cast_ne_zero.mpr (by omega)
  refine ⟨_, wilder_smoothing_ok_eq data p hp (by omega), ?_, ?_⟩
  · simp [wilder_rec_length, List.length_drop]
    omega
  · intro x hx
    simp only [List.mem_append, List.mem_cons, List.mem_replicate] at hx
    rcases hx with ⟨-, rfl⟩ | rfl | hx
    · rfl
    · exact fpMeanTake_isSome data p hp hsome
    · exact wilder_rec_mem_isSome (p : K) hpK _ (fpMeanTake_isSome data p hp hsome) _
        (fun y hy => hsome y (List.mem_of_mem_drop hy)) x hx

theorem calculate_directional_movements_length (high low : List K) (L : ℕ)
    (hh : high.length = L) (hl : low.length = L) (hL : 1 ≤ L) :
    (calculate_directional_movements high low).1.length = L ∧
      (calculate_directional_movements high low).2.length = L := by
  unfold calculate_directional_movements get_signed_directional_movement
  simp [List.length_zipWith, hh, hl]
  omega

theorem adx_smoothed_spec (h l c : List K) (L : ℕ)
    (hhl : h.length = L) (hll : l.length = L) (hcl : c.length = L)
    (p : ℕ) (hp : 1 ≤ p) (hpL : p ≤ L) :
    ∃ a, adx_smoothed h l c p = .ok a ∧ a.length = L ∧ ∀ x ∈ a, x.isSome := by
  have hL1 : 1 ≤ L := le_trans hp hpL
  have htrl : (calculate_true_range h l c).length = L :=
    (calculate_true_range_length h l c (by rw [hll, hhl]) (by rw [hcl, hhl])).trans hhl
  have hdm := calculate_directional_movements_length h l L hhl hll hL1
  have hmapfin : ∀ (xs : List K), ∀ x ∈ xs.map (Fp.fin (K := K)), x.isSome := by
    intro xs x hx
    simp only [List.mem_map] at hx
    obtain ⟨y, -, rfl⟩ := hx
    rfl
  unfold adx_smoothed
  obtain ⟨w1, hw1, hw1l, hw1s⟩ := exists_wilder_result
    ((calculate_true_range h l c).map Fp.fin) p L hp (by simp [htrl]) hpL (hmapfin _)
  obtain ⟨w2, hw2, hw2l, hw2s⟩ := exists_wilder_result
    ((calculate_directional_movements h l).1.map Fp.fin) p L hp (by simp [hdm.1]) hpL (hmapfin _)
  obtain ⟨w3, hw3, hw3l, hw3s⟩ := exists_wilder_result
    ((calculate_directional_movements h l).2.map Fp.fin) p L hp (by simp [hdm.2]) hpL (hmapfin _)
  simp only [hw1, hw2, hw3, bind_ok_res]
  refine exists_wilder_result _ p L hp ?_ hpL ?_
  · simp [List.length_zipWith, hw1l, hw2l, hw3l]
  · intro x hx
    simp only [List.mem_map] at hx
    obtain ⟨y, -, rfl⟩ := hx
    exact Fp.normalizeZero_isSome y

theorem adxCalculate_spec (d : InputData K) (h l c : List K) (L : ℕ)
    (hh : d.high = some h) (hl : d.low = some l) (hc : d.close = some c)
    (hhl : h.length = L) (hll : l.length = L) (hcl : c.length = L)
    (p : ℕ) (hp : 1 ≤ p) (hpL : p ≤ L) (hstart : 2 * (p - 1) ≤ L) :
    ∃ out, adxCalculate d ⟨p⟩ = .ok (.SingleSeries out) ∧ out.length = L ∧
      (∀ i, i < 2 * (p - 1) → fpAt out i = Fp.nan) ∧
      (∀ i, 2 * (p - 1) ≤ i → i < L → (fpAt out i).isSome) := by
  obtain ⟨a, ha, hal, has⟩ := adx_smoothed_spec h l c L hhl hll hcl p hp hpL
  have hdl : (a.drop (2 * (p - 1))).length = L - 2 * (p - 1) := by
    simp [List.length_drop, hal]
  refine ⟨List.replicate (2 * (p - 1)) Fp.nan ++ a.drop (2 * (p - 1)), ?_, ?_, ?_, ?_⟩
  · unfold adxCalculate
    rw [adx_validate_ok d h l c L hh hl hc hhl hll hcl p hp hpL]
    show (match d.get_by_bar_field .HIGH, d.get_by_bar_field .LOW,
        d.get_by_bar_field .CLOSE with
      | some high, some low, some close => _
      | _, _, _ => _) = _
    rw [show d.get_by_bar_field .HIGH = some h from hh,
      show d.get_by_bar_field .LOW = some l from hl,
      show d.get_by_bar_field .CLOSE = some c from hc]
    show (adx_smoothed h l c p >>= fun adx => _) = _
    rw [ha]
    simp only [bind_ok_res]
    rw [if_neg (show ¬ h.length < p by omega)]
    rw [if_neg (show ¬ 2 * (p - 1) > a.length by omega)]
    rw [if_neg (show ¬ 2 * (p - 1) + (a.drop (2 * (p - 1))).length > h.length by
      rw [hdl]; omega)]
    rw [show h.length - (2 * (p - 1) + (a.drop (2 * (p - 1))).length) = 0 by
      rw [hdl]; omega]
    rw [List.replicate_zero, List.append_nil]
    rfl
  · simp [hdl]
    omega
  · intro i hi
    unfold fpAt
    have htot : i < (List.replicate (2 * (p - 1)) (Fp.nan : Fp K)
        ++ a.drop (2 * (p - 1))).length := by
      simp [hdl]
      omega
    rw [List.getD_eq_getElem?_getD, List.getElem?_eq_getElem htot, Option.getD_some]
    rw [List.getElem_append_left (by simp; omega)]
    simp
  · intro i hi1 hi2
    unfold fpAt
    have htot : i < (List.replicate (2 * (p - 1)) (Fp.nan : Fp K)
        ++ a.drop (2 * (p - 1))).length := by
      simp [hdl]
      omega
    rw [List.getD_eq_getElem?_getD, List.getElem?_eq_getElem htot, Option.getD_some]
    rw [List.getElem_append_right (by simp; omega)]
    exact has _ (List.mem_of_mem_drop (List.getElem_mem _))

end WilderLemmas

/-- **C2 (amended).**  For ADX with a validated period (`1 ≤ p ≤ L`) and,
additionally, `2·(p−1) ≤ L` (otherwise the `adx.slice(s![start_index..])`
panics — see the counterexample), `calculate` returns a length-`L` series
whose entries below index `2·(p−1)` are NaN and whose entries at or above
`2·(p−1)` are finite. -/
theorem spec_c2 (K : Type) [LinearOrderedField K] (d : InputData K)
    (h l c : List K) (L : ℕ)
    (hh : d.high = some h) (hl : d.low = some l) (hc : d.close = some c)
    (hhl : h.length = L) (hll : l.length = L) (hcl : c.length = L)
    (p : ℕ) (hp : 1 ≤ p) (hpL : p ≤ L) (hstart : 2 * (p - 1) ≤ L) :
    ∃ out, adxCalculate d ⟨p⟩ = .ok (.SingleSeries out) ∧ out.length = L ∧
      (∀ i, i < 2 * (p - 1) → fpAt out i = Fp.nan) ∧
      (∀ i, 2 * (p - 1) ≤ i → i < L → (fpAt out i).isSome) :=
  adxCalculate_spec d h l c L hh hl hc hhl hll hcl p hp hpL hstart

/-- Counterexample to C2 as stated: `period = 4` on five bars passes
validation (`4 ≤ 5`), yet `ADX::calculate` panics — `start_index = 6` is
past the end of the length-5 `adx` array — instead of returning the
NaN-prefixed series the claim describes. -/
theorem spec_c2_counterexample :
    (adx_create_validator (K := ℚ)).validate
        ⟨none, some [1, 2, 3, 4, 5], some [0, 1, 2, 3, 4], some [1, 2, 3, 4, 5], none⟩
        (ADXParams.to_value ⟨4⟩) = .ok () ∧
    adxCalculate (K := ℚ)
        ⟨none, some [1, 2, 3, 4, 5], some [0, 1, 2, 3, 4], some [1, 2, 3, 4, 5], none⟩
        ⟨4⟩ = .error .crash := by
  exact ⟨by decide, by decide⟩

/-- Witness for C2 (amended) at `p = 2`, `L = 4`. -/
theorem spec_c2_witness :
    resultLens (adxCalculate (K := ℚ)
      ⟨none, some [2, 4, 6, 8], some [1, 2, 3, 4], some [2, 4, 6, 8], none⟩ ⟨2⟩)
      = .ok [4] := by
  obtain ⟨out, heq, hlen, -, -⟩ := spec_c2 ℚ
    ⟨none, some [2, 4, 6, 8], some [1, 2, 3, 4], some [2, 4, 6, 8], none⟩
    [2, 4, 6, 8] [1, 2, 3, 4] [2, 4, 6, 8] 4 rfl rfl rfl
    (by decide) (by decide) (by decide) 2 (by decide) (by decide) (by decide)
  rw [resultLens, heq]
  simp [Except.map, OutputData.series, hlen]

/-- **C3 (amended).**  For ADXR with a validated period (`1 ≤ p ≤ L`) and,
additionally, `2·(p−1) ≤ L` (otherwise the upstream ADX call panics — see
the counterexample), the output at every index `i ≥ p` is the average of the
upstream ADX values at `i` and `i − p` when both are non-NaN and NaN
otherwise, every index below `p` is NaN; consequently indices below
`2·(p−1) + p` are NaN and indices at or above `2·(p−1) + p` (below `L`) are
finite. -/
theorem spec_c3 (K : Type) [LinearOrderedField K] (d : InputData K)
    (h l c : List K) (L : ℕ)
    (hh : d.high = some h) (hl : d.low = some l) (hc : d.close = some c)
    (hhl : h.length = L) (hll : l.length = L) (hcl : c.length = L)
    (p : ℕ) (hp : 1 ≤ p) (hpL : p ≤ L) (hstart : 2 * (p - 1) ≤ L) :
    ∃ a r, adxCalculate d ⟨p⟩ = .ok (.SingleSeries a) ∧
      adxrCalculate d ⟨p⟩ = .ok (.SingleSeries r) ∧
      a.length = L ∧ r.length = L ∧
      (∀ i, p ≤ i → i < L →
        fpAt r i = (match fpAt a i, fpAt a (i - p) with
          | some x, some y => Fp.div (Fp.add (Fp.fin x) (Fp.fin y)) (Fp.fin 2)
          | _, _ => Fp.nan)) ∧
      (∀ i, i < p → i < L → fpAt r i = Fp.nan) ∧
      (∀ i, i < 2 * (p - 1) + p → i < L → fpAt r i = Fp.nan) ∧
      (∀ i, 2 * (p - 1) + p ≤ i → i < L → (fpAt r i).isSome) := by
  obtain ⟨a, ha, hal, hnan, hfin⟩ :=
    adxCalculate_spec d h l c L hh hl hc hhl hll hcl p hp hpL hstart
  have hbr : ∀ j, j < L → a.getD j Fp.nan = fpAt a j := by
    intro j hj
    unfold fpAt
    rw [List.getD_eq_getElem?_getD, List.getElem?_eq_getElem (by omega), Option.getD_some,
      List.getD_eq_getElem?_getD, List.getElem?_eq_getElem (by omega), Option.getD_some]
  have hridx : ∀ i, i < L → fpAt ((List.range a.length).map (fun i =>
      if i < p then Fp.nan
      else
        match a.getD i Fp.nan, a.getD (i - p) Fp.nan with
        | some x, some y => Fp.div (Fp.add (Fp.fin x) (Fp.fin y)) (Fp.fin 2)
        | _, _ => Fp.nan)) i =
      (if i < p then Fp.nan
      else
        match a.getD i Fp.nan, a.getD (i - p) Fp.nan with
        | some x, some y => Fp.div (Fp.add (Fp.fin x) (Fp.fin y)) (Fp.fin 2)
        | _, _ => Fp.nan) := by
    intro i hi
    unfold fpAt
    have hm : i < ((List.range a.length).map (fun i =>
        if i < p then Fp.nan
        else
          match a.getD i Fp.nan, a.getD (i - p) Fp.nan with
          | some x, some y => Fp.div (Fp.add (Fp.fin x) (Fp.fin y)) (Fp.fin 2)
          | _, _ => Fp.nan)).length := by
      simp [hal]
      omega
    rw [List.getD_eq_getElem?_getD, List.getElem?_eq_getElem hm, Option.getD_some]
    simp only [List.getElem_map, List.getElem_range]
  refine ⟨a, (List.range a.length).map (fun i =>
      if i < p then Fp.nan
      else
        match a.getD i Fp.nan, a.getD (i - p) Fp.nan with
        | some x, some y => Fp.div (Fp.add (Fp.fin x) (Fp.fin y)) (Fp.fin 2)
        | _, _ => Fp.nan), ha, ?_, hal, by simp [hal], ?_, ?_, ?_, ?_⟩
  · unfold adxrCalculate
    rw [adxr_validate_ok d h l c L hh hl hc hhl hll hcl p hp hpL]
    show ((adxCalculate d ⟨p⟩ : Res (OutputData K)) >>= fun adx_result => _) = _
    rw [ha]
    simp only [bind_ok_res]
    rfl
  · intro i hip hiL
    rw [hridx i hiL, if_neg (by omega), hbr i hiL, hbr (i - p) (by omega)]
  · intro i hip hiL
    rw [hridx i hiL, if_pos hip]
  · intro i hih hiL
    rw [hridx i hiL]
    by_cases hip : i < p
    · rw [if_pos hip]
    · rw [if_neg hip]
      have hnan2 : a.getD (i - p) Fp.nan = Fp.nan := by
        rw [hbr (i - p) (by omega)]
        exact hnan (i - p) (by omega)
      rw [hnan2]
      cases a.getD i Fp.nan <;> rfl
  · intro i hih hiL
    rw [hridx i hiL, if_neg (by omega)]
    have h1 : (a.getD i Fp.nan).isSome := by
      rw [hbr i hiL]
      exact hfin i (by omega) hiL
    have h2 : (a.getD (i - p) Fp.nan).isSome := by
      rw [hbr (i - p) (by omega)]
      exact hfin (i - p) (by omega) (by omega)
    obtain ⟨x, hx⟩ := Option.isSome_iff_exists.mp h1
    obtain ⟨y, hy⟩ := Option.isSome_iff_exists.mp h2
    rw [hx, hy]
    show (Fp.div (Fp.add (Fp.fin x) (Fp.fin y)) (Fp.fin 2)).isSome
    simp [Fp.div, Fp.add, Fp.fin, (two_ne_zero : (2 : K) ≠ 0)]

/-- Counterexample to C3 as stated: `period = 4` on five bars passes
validation, but ADXR panics inside its upstream ADX call instead of
producing the NaN-prefixed series the claim describes. -/
theorem spec_c3_counterexample :
    (adxr_create_validator (K := ℚ)).validate
        ⟨none, some [2, 3, 4, 5, 6], some [1, 2, 3, 4, 5], some [2, 3, 4, 5, 6], none⟩
        (ADXRParams.to_value ⟨4⟩) = .ok () ∧
    adxrCalculate (K := ℚ)
        ⟨none, some [2, 3, 4, 5, 6], some [1, 2, 3, 4, 5], some [2, 3, 4, 5, 6], none⟩
        ⟨4⟩ = .error .crash := by
  exact ⟨by decide, by decide⟩

/-- Witness for C3 (amended) at `p = 1`, `L = 3`. -/
theorem spec_c3_witness :
    resultLens (adxrCalculate (K := ℚ)
      ⟨none, some [3, 5, 7], some [1, 2, 3], some [3, 5, 7], none⟩ ⟨1⟩)
      = .ok [3] := by
  obtain ⟨a, r, -, heq, -, hlen, -⟩ := spec_c3 ℚ
    ⟨none, some [3, 5, 7], some [1, 2, 3], some [3, 5, 7], none⟩
    [3, 5, 7] [1, 2, 3] [3, 5, 7] 3 rfl rfl rfl
    (by decide) (by decide) (by decide) 1 (by decide) (by decide) (by decide)
  rw [resultLens, heq]
  simp [Except.map, OutputData.series, hlen]



section SeriesLengths

variable {K : Type} [LinearOrderedField K]

theorem ok_of_pure_eq_ok {ε α : Type} {x y : α} (h : (pure x : Except ε α) = .ok y) :
    x = y :=
  Except.ok.inj h

@[simp]
theorem bind_pure_res {ε α β : Type} (a : α) (f : α → Except ε β) :
    (pure a : Except ε α) >>= f = f a := rfl

theorem calculate_ema_ok_inv (data : List (Fp K)) (p : ℕ) (out : List (Fp K))
    (h : calculate_ema data p = .ok out) : 1 ≤ p ∧ p ≤ data.length := by
  unfold calculate_ema at h
  split at h
  · exact absurd h (by simp)
  · omega

theorem avgprice_ok_series_length (d : InputData K) (L : ℕ) (hu : d.uniformLen L)
    (out : OutputData K) (hok : avgPriceCalculate d = .ok out) :
    ∀ s ∈ out.series, s.length = L := by
  unfold avgPriceCalculate at hok
  cases hv : (avgprice_create_validator (K := K)).candle_validator.validate_candle d with
  | error e => rw [hv] at hok; simp [liftErr] at hok
  | ok u =>
    cases u
    rw [hv] at hok
    simp only [liftErr, bind_ok_res] at hok
    cases ho : d.get_by_bar_field .OPEN with
    | none => rw [ho] at hok; exact absurd hok (by simp)
    | some o =>
      cases hh : d.get_by_bar_field .HIGH with
      | none => rw [ho, hh] at hok; exact absurd hok (by simp)
      | some h =>
        cases hl : d.get_by_bar_field .LOW with
        | none => rw [ho, hh, hl] at hok; exact absurd hok (by simp)
        | some l =>
          cases hc : d.get_by_bar_field .CLOSE with
          | none => rw [ho, hh, hl, hc] at hok; exact absurd hok (by simp)
          | some c =>
            rw [ho, hh, hl, hc] at hok
            obtain rfl := ok_of_pure_eq_ok hok
            intro s hs
            simp only [OutputData.series, List.mem_singleton] at hs
            subst hs
            simp [List.length_zipWith, hu .OPEN o ho, hu .HIGH h hh, hu .LOW l hl,
              hu .CLOSE c hc]

theorem aroon_ok_series_length (d : InputData K) (p : AROONParams) (L : ℕ)
    (hu : d.uniformLen L) (out : OutputData K)
    (hok : aroonCalculate d p = .ok out) :
    ∀ s ∈ out.series, s.length = L := by
  unfold aroonCalculate at hok
  cases hv : (aroon_create_validator (K := K)).validate d p.to_value with
  | error e => rw [hv] at hok; simp [liftErr] at hok
  | ok u =>
    cases u
    rw [hv] at hok
    simp only [liftErr, bind_ok_res] at hok
    cases hh : d.get_by_bar_field .HIGH with
    | none => rw [hh] at hok; exact absurd hok (by simp)
    | some h =>
      cases hl : d.get_by_bar_field .LOW with
      | none => rw [hh, hl] at hok; exact absurd hok (by simp)
      | some l =>
        rw [hh, hl] at hok
        obtain rfl := ok_of_pure_eq_ok hok
        intro s hs
        simp only [OutputData.series, List.map_cons, List.map_nil, List.mem_cons,
          List.not_mem_nil, or_false] at hs
        rcases hs with rfl | rfl
        · simp [aroon_up_series, hu .HIGH h hh]
        · simp [aroon_down_series, hu .HIGH h hh]

theorem chaikin_cumsum_length (mfv : List (Fp K)) :
    (match mfv with | [] => ([] : List (Fp K)) | v :: vs => v :: ad_line_go v vs).length
      = mfv.length := by
  cases mfv <;> simp [ad_line_go_length]

theorem chaikin_ad_line_ok_series_length (d : InputData K) (L : ℕ)
    (hu : d.uniformLen L) (out : OutputData K)
    (hok : chaikinADLineCalculate d = .ok out) :
    ∀ s ∈ out.series, s.length = L := by
  unfold chaikinADLineCalculate at hok
  cases hh : d.high with
  | none => rw [hh] at hok; exact absurd hok (by simp)
  | some h =>
    cases hl : d.low with
    | none => rw [hh, hl] at hok; exact absurd hok (by simp)
    | some l =>
      cases hc : d.close with
      | none => rw [hh, hl, hc] at hok; exact absurd hok (by simp)
      | some c =>
        cases hv : d.volume with
        | none => rw [hh, hl, hc, hv] at hok; exact absurd hok (by simp)
        | some v =>
          rw [hh, hl, hc, hv] at hok
          simp only [bind_pure_res] at hok
          have hhl : h.length = L := hu .HIGH h hh
          have hll : l.length = L := hu .LOW l hl
          have hcl : c.length = L := hu .CLOSE c hc
          have hvl : v.length = L := hu .VOLUME v hv
          rw [if_neg (by omega)] at hok
          obtain rfl := ok_of_pure_eq_ok hok
          intro s hs
          simp only [OutputData.series, List.mem_singleton] at hs
          subst hs
          rw [chaikin_cumsum_length]
          simp [List.length_zipWith]
          omega

theorem apo_ok_series_length (d : InputData K) (p : APOParams) (L : ℕ)
    (hu : d.uniformLen L) (out : OutputData K)
    (hok : apoCalculate d p = .ok out) :
    ∀ s ∈ out.series, s.length = L := by
  unfold apoCalculate at hok
  cases hv : (apo_create_validator (K := K)).validate d p.to_value with
  | error e => rw [hv] at hok; simp [liftErr] at hok
  | ok u =>
    cases u
    rw [hv] at hok
    simp only [liftErr, bind_ok_res] at hok
    cases hc : d.get_by_bar_field .CLOSE with
    | none => rw [hc] at hok; exact absurd hok (by simp)
    | some c =>
      rw [hc] at hok
      have hok2 : (exponential_moving_average c p.fast_period >>= fun fast_ema =>
          exponential_moving_average c p.slow_period >>= fun slow_ema =>
          pure (OutputData.SingleSeries (List.zipWith Fp.sub fast_ema slow_ema))) = .ok out := hok
      clear hok
      cases hf : exponential_moving_average c p.fast_period with
      | error e => rw [hf] at hok2; simp at hok2
      | ok fe =>
        rw [hf] at hok2
        simp only [bind_ok_res] at hok2
        cases hsl : exponential_moving_average c p.slow_period with
        | error e => rw [hsl] at hok2; simp at hok2
        | ok se =>
          rw [hsl] at hok2
          simp only [bind_ok_res] at hok2
          obtain rfl := ok_of_pure_eq_ok hok2
          intro s hs
          simp only [OutputData.series, List.mem_singleton] at hs
          subst hs
          have h1 := exponential_moving_average_ok_length c p.fast_period fe hf
          have h2 := exponential_moving_average_ok_length c p.slow_period se hsl
          simp [List.length_zipWith, h1, h2, hu .CLOSE c hc]

theorem atr_ok_series_length (d : InputData K) (p : ATRParams) (L : ℕ)
    (hu : d.uniformLen L) (out : OutputData K)
    (hok : atrCalculate d p = .ok out) :
    ∀ s ∈ out.series, s.length = L := by
  unfold atrCalculate at hok
  cases hv : (atr_create_validator (K := K)).validate d p.to_value with
  | error e => rw [hv] at hok; simp [liftErr] at hok
  | ok u =>
    cases u
    rw [hv] at hok
    simp only [liftErr, bind_ok_res] at hok
    cases hh : d.get_by_bar_field .HIGH with
    | none => rw [hh] at hok; exact absurd hok (by simp)
    | some h =>
      cases hl : d.get_by_bar_field .LOW with
      | none => rw [hh, hl] at hok; exact absurd hok (by simp)
      | some l =>
        cases hc : d.get_by_bar_field .CLOSE with
        | none => rw [hh, hl, hc] at hok; exact absurd hok (by simp)
        | some c =>
          rw [hh, hl, hc] at hok
          have hok2 : (if p.period = 0 ∨ (calculate_true_range h l c).length < p.period then
              (Except.error Failure.crash : Res (OutputData K))
            else pure (OutputData.SingleSeries
              (List.replicate (p.period - 1) Fp.nan ++
                (((calculate_true_range h l c).take p.period).sum / (p.period : K) ::
                  atr_go (p.period : K)
                    (((calculate_true_range h l c).take p.period).sum / (p.period : K))
                    ((calculate_true_range h l c).drop p.period)).map Fp.fin))) = .ok out := hok
          clear hok
          have htr : (calculate_true_range h l c).length = L := by
            rw [calculate_true_range_length h l c
              (by rw [hu .LOW l hl, hu .HIGH h hh])
              (by rw [hu .CLOSE c hc, hu .HIGH h hh])]
            exact hu .HIGH h hh
          by_cases hcond : p.period = 0 ∨ (calculate_true_range h l c).length < p.period
          · rw [if_pos hcond] at hok2
            simp at hok2
          · rw [if_neg hcond] at hok2
            obtain rfl := ok_of_pure_eq_ok hok2
            intro s hs
            simp only [OutputData.series, List.mem_singleton] at hs
            subst hs
            push_neg at hcond
            simp [atr_go_length, List.length_drop, htr]
            omega

theorem bbands_ok_series_length (d : InputData ℝ) (p : BBandsParams) (L : ℕ)
    (hu : d.uniformLen L) (out : OutputData ℝ)
    (hok : bbandsCalculate d p = .ok out) :
    ∀ s ∈ out.series, s.length = L := by
  unfold bbandsCalculate at hok
  cases hv : bbands_create_validator.validate d p.to_value with
  | error e => rw [hv] at hok; simp [liftErr] at hok
  | ok u =>
    cases u
    rw [hv] at hok
    simp only [liftErr, bind_ok_res] at hok
    cases hc : d.get_by_bar_field .CLOSE with
    | none => rw [hc] at hok; exact absurd hok (by simp)
    | some c =>
      rw [hc] at hok
      obtain rfl := ok_of_pure_eq_ok hok
      have hcl : c.length = L := hu .CLOSE c hc
      have hmal : (bbands_ma c p.period).length = L := by
        unfold bbands_ma
        simp [hcl]
      have hsdl : (bbands_sd c p.period).length = L := by
        unfold bbands_sd
        simp [hcl]
      intro s hs
      simp only [OutputData.series, List.map_cons, List.map_nil, List.mem_cons,
        List.not_mem_nil, or_false] at hs
      rcases hs with rfl | rfl | rfl
      · exact hmal
      · unfold bbands_upper; simp [List.length_zipWith, hmal, hsdl]
      · unfold bbands_lower; simp [List.length_zipWith, hmal, hsdl]

theorem adx_ok_series_length (d : InputData K) (p : ADXParams) (L : ℕ)
    (hu : d.uniformLen L) (out : OutputData K)
    (hok : adxCalculate d p = .ok out) :
    ∀ s ∈ out.series, s.length = L := by
  unfold adxCalculate at hok
  cases hv : (adx_create_validator (K := K)).validate d p.to_value with
  | error e => rw [hv] at hok; simp [liftErr] at hok
  | ok u =>
    cases u
    rw [hv] at hok
    simp only [liftErr, bind_ok_res] at hok
    cases hh : d.get_by_bar_field .HIGH with
    | none => rw [hh] at hok; exact absurd hok (by simp)
    | some h =>
      cases hl : d.get_by_bar_field .LOW with
      | none => rw [hh, hl] at hok; exact absurd hok (by simp)
      | some l =>
        cases hc : d.get_by_bar_field .CLOSE with
        | none => rw [hh, hl, hc] at hok; exact absurd hok (by simp)
        | some c =>
          rw [hh, hl, hc] at hok
          have hok2 : (adx_smoothed h l c p.period >>= fun adx =>
              if h.length < p.period then
                pure (OutputData.SingleSeries (List.replicate h.length Fp.nan))
              else if 2 * (p.period - 1) > adx.length then
                (Except.error Failure.crash : Res (OutputData K))
              else if 2 * (p.period - 1) + (adx.drop (2 * (p.period - 1))).length > h.length then
                Except.error (.err (.CalculationError
                  "Calculated ADX length exceeds input data length."))
              else
                pure (OutputData.SingleSeries
                  (List.replicate (2 * (p.period - 1)) Fp.nan ++ adx.drop (2 * (p.period - 1)) ++
                    List.replicate (h.length - (2 * (p.period - 1) +
                      (adx.drop (2 * (p.period - 1))).length)) Fp.nan))) = .ok out := hok
          clear hok
          have hhl : h.length = L := hu .HIGH h hh
          cases hs : adx_smoothed h l c p.period with
          | error e => rw [hs] at hok2; simp at hok2
          | ok a =>
            rw [hs] at hok2
            simp only [bind_ok_res] at hok2
            by_cases h1 : h.length < p.period
            · rw [if_pos h1] at hok2
              obtain rfl := ok_of_pure_eq_ok hok2
              intro s hs2
              simp only [OutputData.series, List.mem_singleton] at hs2
              subst hs2
              simp [hhl]
            · rw [if_neg h1] at hok2
              by_cases h2 : 2 * (p.period - 1) > a.length
              · rw [if_pos h2] at hok2
                simp at hok2
              · rw [if_neg h2] at hok2
                by_cases h3 : 2 * (p.period - 1) + (a.drop (2 * (p.period - 1))).length > h.length
                · rw [if_pos h3] at hok2
                  simp at hok2
                · rw [if_neg h3] at hok2
                  obtain rfl := ok_of_pure_eq_ok hok2
                  intro s hs2
                  simp only [OutputData.series, List.mem_singleton] at hs2
                  subst hs2
                  rw [← hhl]
                  simp only [List.length_append, List.length_replicate]
                  omega

theorem adxr_ok_series_length (d : InputData K) (p : ADXRParams) (L : ℕ)
    (hu : d.uniformLen L) (out : OutputData K)
    (hok : adxrCalculate d p = .ok out) :
    ∀ s ∈ out.series, s.length = L := by
  unfold adxrCalculate at hok
  cases hv : (adxr_create_validator (K := K)).validate d p.to_value with
  | error e => rw [hv] at hok; simp [liftErr] at hok
  | ok u =>
    cases u
    rw [hv] at hok
    simp only [liftErr, bind_ok_res] at hok
    cases ha : adxCalculate d ⟨p.period⟩ with
    | error e => rw [ha] at hok; simp at hok
    | ok o =>
      rw [ha] at hok
      simp only [bind_ok_res] at hok
      cases o with
      | MultiSeries m => simp at hok
      | SingleSeries series =>
        have hok2 : ((pure series : Res (List (Fp K))) >>= fun adx_values =>
            pure (OutputData.SingleSeries ((List.range adx_values.length).map (fun i =>
              if i < p.period then Fp.nan
              else
                match adx_values.getD i Fp.nan, adx_values.getD (i - p.period) Fp.nan with
                | some a, some b => Fp.div (Fp.add (Fp.fin a) (Fp.fin b)) (Fp.fin 2)
                | _, _ => Fp.nan)))) = .ok out := hok
        clear hok
        simp only [bind_pure_res] at hok2
        obtain rfl := ok_of_pure_eq_ok hok2
        have hsl : series.length = L :=
          adx_ok_series_length d ⟨p.period⟩ L hu _ ha series (by simp [OutputData.series])
        intro s hs2
        simp only [OutputData.series, List.mem_singleton] at hs2
        subst hs2
        simp [hsl]

theorem adosc_ok_series_length (d : InputData K) (p : ChaikinOscillatorParams) (L : ℕ)
    (hu : d.uniformLen L) (out : OutputData K)
    (hok : adoscCalculate d p = .ok out) :
    ∀ s ∈ out.series, s.length = L - (p.long_period - 1) := by
  unfold adoscCalculate at hok
  cases hv : (adosc_create_validator (K := K)).validate d p.to_value with
  | error e => rw [hv] at hok; simp [liftErr] at hok
  | ok u =>
    cases u
    rw [hv] at hok
    simp only [liftErr, bind_ok_res] at hok
    cases hh : d.get_by_bar_field .HIGH with
    | none => rw [hh] at hok; exact absurd hok (by simp)
    | some h =>
      cases hl : d.get_by_bar_field .LOW with
      | none => rw [hh, hl] at hok; exact absurd hok (by simp)
      | some l =>
        cases hc : d.get_by_bar_field .CLOSE with
        | none => rw [hh, hl, hc] at hok; exact absurd hok (by simp)
        | some c =>
          cases hvo : d.get_by_bar_field .VOLUME with
          | none => rw [hh, hl, hc, hvo] at hok; exact absurd hok (by simp)
          | some v =>
            rw [hh, hl, hc, hvo] at hok
            have hok2 : (liftErr (calculate_adl h l c v) >>= fun adl =>
                liftErr (calculate_ema adl p.short_period) >>= fun short_ema =>
                liftErr (calculate_ema adl p.long_period) >>= fun long_ema =>
                if p.long_period - 1 > short_ema.length ∨ p.long_period - 1 > long_ema.length then
                  (Except.error Failure.crash : Res (OutputData K))
                else
                  pure (OutputData.SingleSeries
                    (List.zipWith Fp.sub (short_ema.drop (p.long_period - 1))
                      (long_ema.drop (p.long_period - 1))))) = .ok out := hok
            clear hok
            have hadll : (cumulative_sum (adl_mfv h l c v)).length = L := by
              rw [cumulative_sum_length]
              exact adl_mfv_length h l c v L (hu .HIGH h hh) (hu .LOW l hl)
                (hu .CLOSE c hc) (hu .VOLUME v hvo)
            rw [show calculate_adl h l c v
              = Except.ok (cumulative_sum (adl_mfv h l c v)) from rfl] at hok2
            simp only [liftErr, bind_ok_res] at hok2
            cases hse : calculate_ema (cumulative_sum (adl_mfv h l c v)) p.short_period with
            | error e => rw [hse] at hok2; simp [liftErr] at hok2
            | ok short_ema =>
              rw [hse] at hok2
              simp only [liftErr, bind_ok_res] at hok2
              cases hle : calculate_ema (cumulative_sum (adl_mfv h l c v)) p.long_period with
              | error e => rw [hle] at hok2; simp [liftErr] at hok2
              | ok long_ema =>
                rw [hle] at hok2
                simp only [liftErr, bind_ok_res] at hok2
                have hsl : short_ema.length = L :=
                  (calculate_ema_ok_length _ _ _ hse).trans hadll
                have hll : long_ema.length = L :=
                  (calculate_ema_ok_length _ _ _ hle).trans hadll
                have hinv := calculate_ema_ok_inv _ _ _ hle
                rw [hadll] at hinv
                rw [if_neg (by omega)] at hok2
                obtain rfl := ok_of_pure_eq_ok hok2
                intro s hs2
                simp only [OutputData.series, List.mem_singleton] at hs2
                subst hs2
                simp [List.length_zipWith, List.length_drop, hsl, hll]

end SeriesLengths

/-- **C1 (amended).**  For every input whose present fields all have length
`L` and every parameter set that passes validation, each indicator that
returns `.ok` returns series of length exactly `L` — with one exception:
the Chaikin A/D oscillator's single output series has length
`L - (long_period - 1)`, because `calculate` slices the EMA difference to
begin at `long_period - 1` (`chaikin_ad_oscillator.rs`). -/
theorem spec_c1 (K : Type) [LinearOrderedField K] :
    (∀ (d : InputData K) (p : ADXParams) (L : ℕ), d.uniformLen L →
      ∀ out, adxCalculate d p = .ok out → ∀ s ∈ out.series, s.length = L) ∧
    (∀ (d : InputData K) (p : ADXRParams) (L : ℕ), d.uniformLen L →
      ∀ out, adxrCalculate d p = .ok out → ∀ s ∈ out.series, s.length = L) ∧
    (∀ (d : InputData K) (p : APOParams) (L : ℕ), d.uniformLen L →
      ∀ out, apoCalculate d p = .ok out → ∀ s ∈ out.series, s.length = L) ∧
    (∀ (d : InputData K) (p : AROONParams) (L : ℕ), d.uniformLen L →
      ∀ out, aroonCalculate d p = .ok out → ∀ s ∈ out.series, s.length = L) ∧
    (∀ (d : InputData K) (p : ATRParams) (L : ℕ), d.uniformLen L →
      ∀ out, atrCalculate d p = .ok out → ∀ s ∈ out.series, s.length = L) ∧
    (∀ (d : InputData K) (L : ℕ), d.uniformLen L →
      ∀ out, avgPriceCalculate d = .ok out → ∀ s ∈ out.series, s.length = L) ∧
    (∀ (d : InputData K) (L : ℕ), d.uniformLen L →
      ∀ out, chaikinADLineCalculate d = .ok out → ∀ s ∈ out.series, s.length = L) ∧
    (∀ (d : InputData ℝ) (p : BBandsParams) (L : ℕ), d.uniformLen L →
      ∀ out, bbandsCalculate d p = .ok out → ∀ s ∈ out.series, s.length = L) ∧
    (∀ (d : InputData K) (p : ChaikinOscillatorParams) (L : ℕ), d.uniformLen L →
      ∀ out, adoscCalculate d p = .ok out →
        ∀ s ∈ out.series, s.length = L - (p.long_period - 1)) :=
  ⟨fun d p L hu out hok => adx_ok_series_length d p L hu out hok,
   fun d p L hu out hok => adxr_ok_series_length d p L hu out hok,
   fun d p L hu out hok => apo_ok_series_length d p L hu out hok,
   fun d p L hu out hok => aroon_ok_series_length d p L hu out hok,
   fun d p L hu out hok => atr_ok_series_length d p L hu out hok,
   fun d L hu out hok => avgprice_ok_series_length d L hu out hok,
   fun d L hu out hok => chaikin_ad_line_ok_series_length d L hu out hok,
   fun d p L hu out hok => bbands_ok_series_length d p L hu out hok,
   fun d p L hu out hok => adosc_ok_series_length d p L hu out hok⟩

/-- Counterexample to C1 as stated: the Chaikin A/D oscillator on three
uniform-length bars with validated periods `(1, 2)` returns a single series
of length `2`, not `3` — the sliced EMA difference drops the first
`long_period - 1` entries. -/
theorem spec_c1_counterexample :
    InputData.uniformLen (K := ℚ)
        ⟨none, some [2, 3, 4], some [1, 2, 3], some [2, 3, 4], some [10, 10, 10]⟩ 3 ∧
    resultLens (adoscCalculate (K := ℚ)
        ⟨none, some [2, 3, 4], some [1, 2, 3], some [2, 3, 4], some [10, 10, 10]⟩
        ⟨1, 2⟩) = .ok [2] :=
  ⟨by decide, by decide⟩

/-- `true` iff a calculation result is `.ok` with a single series. -/
def okSingleB {K : Type} [LinearOrderedField K] : Res (OutputData K) → Bool
  | .ok (.SingleSeries _) => true
  | _ => false

/-- Witness for C1 (amended): the ATR conjunct at four bars, `period = 2`. -/
theorem spec_c1_witness :
    resultLens (atrCalculate (K := ℚ)
      ⟨none, some [3, 4, 5, 6], some [1, 2, 3, 4], some [2, 3, 4, 5], none⟩ ⟨2⟩) = .ok [4] := by
  have hsingle : okSingleB (atrCalculate (K := ℚ)
      ⟨none, some [3, 4, 5, 6], some [1, 2, 3, 4], some [2, 3, 4, 5], none⟩ ⟨2⟩) = true := by
    decide
  cases hk : atrCalculate (K := ℚ)
      ⟨none, some [3, 4, 5, 6], some [1, 2, 3, 4], some [2, 3, 4, 5], none⟩ ⟨2⟩ with
  | error e => rw [hk] at hsingle; simp [okSingleB] at hsingle
  | ok out =>
    have hlen := (spec_c1 ℚ).2.2.2.2.1
      ⟨none, some [3, 4, 5, 6], some [1, 2, 3, 4], some [2, 3, 4, 5], none⟩ ⟨2⟩ 4
      (by decide) out hk
    cases out with
    | MultiSeries m => rw [hk] at hsingle; simp [okSingleB] at hsingle
    | SingleSeries s =>
      rw [resultLens]
      have hs4 : s.length = 4 := hlen s (by simp [OutputData.series])
      simp [Except.map, OutputData.series, hs4]

end Rustick
